import Mathlib

/-!
Verification development for the maqui-lang compiler front-end
(lexer, semantic analyzer, LLVM IR lowering).

The Go sources are shallowly embedded: pointers and in-place mutation
become explicit value/state passing, Go maps become association lists
with replace-on-add semantics, channels become lists of emitted items,
and Go run-time panics (nil-pointer dereference, unimplemented lowering)
are modelled by `Option`/failure results (`none` = the Go program
panics).  Go interface equality (`==`) on errors held as pointers is
pointer identity; error values therefore carry an allocation identifier
(`id`) handed out by a monotone counter, and `==` is identifier
equality, while structural equality compares only the payload (`data`).
-/

namespace Maqui

/-- Source location attached to AST nodes and compile errors.  The Go
`Location` struct carries file/start/end; none of the analyzer's control
flow inspects its contents (it is only copied into error values), so it
is embedded as an opaque natural number.  The `GetLocation` accessors of
the AST nodes are not present under src; each embedded node therefore
carries its location directly.  Modelled from the spec: locations are
`(file, start_byte, end_byte)` records treated as opaque here. -/
abbrev Loc := Nat

/-- Binary operators (`ast.go` / `parser.go`: `BinaryOp`). -/
inductive BinaryOp where
  | add
  | sub
  | mul
  | div
deriving DecidableEq, Repr

/-- Unary operators (`UnaryOp`, only negation). -/
inductive UnaryOp where
  | neg
deriving DecidableEq, Repr

/-- Boolean operators (`BooleanOp`; only `==` is defined, per the tests
and `ir.go`'s `BooleanEquals` case).  Modelled from the spec: the
defining Go source file is not under src. -/
inductive BooleanOp where
  | eq
deriving DecidableEq, Repr

/-- Literal kinds (`LiteralType`). -/
inductive LiteralType where
  | number
  | string
deriving DecidableEq, Repr

/-- Semantic types (`semantics.go`: `TypeErr`, `AnyType`, `BasicType`,
`ArgumentType`, `FuncType`).  The extra constructor `basicNil` embeds a
Go interface value holding a nil `*BasicType` pointer: the unary branch
of `ContextAnalyzer.resolve` returns its type-assertion result `t` in
the `else` branch, which is the nil `*BasicType` whenever the operand's
resolved type was not a `*BasicType`.  `func` carries the `Args` and
`Returns` lists (elements built with `arg` and `basic` respectively in
the Go sources). -/
inductive Ty where
  | err (reason : String)
  | any
  | basic (typ : String)
  | basicNil
  | arg (name : String) (type : Ty)
  | func (args : List Ty) (rets : List Ty)
deriving Repr

mutual

/-- Structural (deep) equality test on `Ty`; this is the equality of the
Lean embedding, used to state structural-equality properties.  It is not
the Go `Equals` method (that is `equals` below). -/
def Ty.beq : Ty → Ty → Bool
  | .err r, .err r2 => r == r2
  | .any, .any => true
  | .basic s, .basic s2 => s == s2
  | .basicNil, .basicNil => true
  | .arg n t, .arg n2 t2 => n == n2 && Ty.beq t t2
  | .func a r, .func a2 r2 => Ty.beqList a a2 && Ty.beqList r r2
  | _, _ => false

def Ty.beqList : List Ty → List Ty → Bool
  | [], [] => true
  | x :: xs, y :: ys => Ty.beq x y && Ty.beqList xs ys
  | _, _ => false

end

instance : BEq Ty := ⟨Ty.beq⟩

mutual

theorem Ty.beq_iff_ty : ∀ a b : Ty, Ty.beq a b = true ↔ a = b
  | .err r, b => by
      cases b <;> simp [Ty.beq]
  | .any, b => by
      cases b <;> simp [Ty.beq]
  | .basic s, b => by
      cases b <;> simp [Ty.beq]
  | .basicNil, b => by
      cases b <;> simp [Ty.beq]
  | .arg n t, b => by
      cases b <;> simp [Ty.beq, Ty.beq_iff_ty t]
  | .func a r, b => by
      cases b <;> simp [Ty.beq, Ty.beqList_iff_ty a, Ty.beqList_iff_ty r]

theorem Ty.beqList_iff_ty : ∀ xs ys : List Ty, Ty.beqList xs ys = true ↔ xs = ys
  | [], ys => by
      cases ys <;> simp [Ty.beqList]
  | x :: xs, ys => by
      cases ys <;> simp [Ty.beqList, Ty.beq_iff_ty x, Ty.beqList_iff_ty xs]

end

instance : LawfulBEq Ty where
  eq_of_beq h := (Ty.beq_iff_ty _ _).1 h
  rfl := (Ty.beq_iff_ty _ _).2 rfl

instance : DecidableEq Ty := fun a b =>
  decidable_of_iff (Ty.beq a b = true) (Ty.beq_iff_ty a b)

/-- Reason strings of `TypeErr` (`semantics.go` constants). -/
def typeErrUndefined : String := "undefined"

def typeErrBadExpression : String := "bad expr"

def typeErrIncompatible : String := "incompatible"

def typeErrBadOp : String := "bad op"

mutual

/-- `Type.Equals` dispatched on the receiver's dynamic type, merged into
one function over the `Ty` sum.  `none` marks the places where the Go
code dereferences a nil `*BasicType` receiver or argument and panics:
`BasicType.Equals` evaluates `t.Typ == typ.Typ` whenever the argument's
type assertion to `*BasicType` succeeds (which it does for a nil
pointer), and a nil receiver faults the same way.  A nil receiver with a
non-`*BasicType` argument returns `false` before any dereference. -/
def equals : Ty → Ty → Option Bool
  | .err _, _ => some false
  | .any, t2 =>
      match t2 with
      | .err _ => some false
      | _ => some true
  | .basic s, t2 =>
      match t2 with
      | .basic s2 => some (s == s2)
      | .basicNil => none
      | _ => some false
  | .basicNil, t2 =>
      match t2 with
      | .basic _ => none
      | .basicNil => none
      | _ => some false
  | .arg n t, t2 =>
      match t2 with
      | .arg n2 u => if n == n2 then equals t u else some false
      | _ => some false
  | .func a r, t2 =>
      match t2 with
      | .func a2 r2 =>
          match equalsElems a a2 with
          | none => none
          | some false => some false
          | some true => equalsElems r r2
      | _ => some false

/-- The two indexed loops of `FuncType.Equals`: walk the receiver's
list; any index past the end of the argument's list, or any element
whose `Equals` fails, yields `false`. -/
def equalsElems : List Ty → List Ty → Option Bool
  | [], _ => some true
  | _ :: _, [] => some false
  | x :: xs, y :: ys =>
      match equals x y with
      | none => none
      | some false => some false
      | some true => equalsElems xs ys

end

/-- `ContextAnalyzer.isErrorType`. -/
def isErrorType : Ty → Bool
  | .err _ => true
  | _ => false

/-- `ContextAnalyzer.isOpDefined`.  `none` models the nil `*BasicType`
dereference panic (`t.Typ` with `t` nil after a successful type
assertion). -/
def isOpDefined : Ty → BinaryOp → Option Bool
  | .func _ _, _ => some false
  | .basic s, op => if s == "string" && op != .add then some false else some true
  | .basicNil, _ => none
  | _, _ => some true

/-- Payload of a `CompileError` (`semantics.go`: `BadExprError`,
`UndefinedError`, `IncompatibleTypesError`, `UndefinedOperationError`,
`UndefinedUnitaryError`), with pointer fields replaced by their
contents.  Structural equality of errors is equality of this data. -/
inductive CompileErrorData where
  | badExpr (loc : Loc) (msg : String)
  | undefined (loc : Loc) (name : String)
  | incompatibleTypes (loc : Loc) (t1 t2 : Ty)
  | undefinedOperation (loc : Loc) (t : Ty) (op : BinaryOp)
  | undefinedUnitary (loc : Loc) (t : Ty) (op : UnaryOp)
deriving DecidableEq, Repr

/-- A compile error as stored in Go: a pointer to an error struct.  The
allocation identity of the pointer is `id` (fresh per `AddError`); the
pointed-to contents are `data`.  Go `==` on two stored errors holds
exactly when the `id`s coincide. -/
structure CErr where
  id : Nat
  data : CompileErrorData
deriving DecidableEq, Repr

/-- `SymbolTable`: `Entries` (a Go map, embedded as an association list
with replace-on-add) plus the `Errors` slice.  `Copy` is the identity in
the value embedding (it preserves the stored error pointers, hence their
`id`s). -/
structure SymbolTable where
  entries : List (String × Ty)
  errors : List CErr
deriving DecidableEq, Repr

/-- `SymbolTable.Get`: fetch an entry's type, `none` when absent. -/
def SymbolTable.get (t : SymbolTable) (name : String) : Option Ty :=
  match t.entries.find? (fun p => p.1 == name) with
  | some p => some p.2
  | none => none

/-- Replace the first binding of `name` in an association list, or
append a new one: the embedding of Go map assignment. -/
def setEntry (l : List (String × Ty)) (name : String) (ty : Ty) : List (String × Ty) :=
  match l with
  | [] => [(name, ty)]
  | (k, v) :: rest =>
      if k == name then (name, ty) :: rest else (k, v) :: setEntry rest name ty

/-- `SymbolTable.Add`. -/
def SymbolTable.add (t : SymbolTable) (name : String) (ty : Ty) : SymbolTable :=
  { t with entries := setEntry t.entries name ty }

/-- `SymbolTable.AddError` needs a fresh allocation identifier, threaded
through the analyzer as part of `AState`. -/
structure AState where
  stab : SymbolTable
  nextId : Nat
deriving DecidableEq, Repr

/-- `stab.AddError(&SomeError{...})`: allocate a fresh error object and
append it to the table's error slice. -/
def AState.addError (st : AState) (d : CompileErrorData) : AState :=
  { stab := { st.stab with errors := st.stab.errors ++ [⟨st.nextId, d⟩] }
    nextId := st.nextId + 1 }

/-- `SymbolTable.Import`: copy every entry of `t2` into `t` (replace on
conflict, in `t2`'s order) and append all of `t2`'s errors. -/
def SymbolTable.importTab (t t2 : SymbolTable) : SymbolTable :=
  { entries := t2.entries.foldl (fun acc p => setEntry acc p.1 p.2) t.entries
    errors := t.errors ++ t2.errors }

/-- `NewGlobalSymbolTable`: the built-in
`print : func(v: any) -> ()`. -/
def globalSymbolTable : SymbolTable :=
  { entries := [("print", .func [.arg "v" .any] [])], errors := [] }

/-- AST expressions, merging the node structs used by
`semantics.go`/`ir.go`.  `varDecl.resolvedType` and
`funcCall.resolvedTypes` are the fields mutated in place by the
analyzer (`nil` / empty before annotation).  `ifE` and `boolean` follow
the `IfExpr{Condition, Consequent, Else}` and
`BooleanExpr{Operation, Op1, Op2}` shapes used by `ir.go` and the
parser tests (their defining source file is not under src; modelled
from the spec's `IfExpr{cond, then, else}` / `BooleanExpr{op,op1,op2}`).
Each node carries its location (the `GetLocation` accessors are not
under src; errors copy this value). -/
inductive Expr where
  | bad (loc : Loc) (msg : String)
  | funcDecl (loc : Loc) (name : String) (body : List Expr)
  | varDecl (loc : Loc) (name : String) (value : Expr) (resolvedType : Option Ty)
  | funcCall (loc : Loc) (name : String) (args : List Expr) (resolvedTypes : List Ty)
  | ident (loc : Loc) (name : String)
  | ifE (loc : Loc) (cond : Expr) (cons : List Expr) (els : List Expr)
  | binary (loc : Loc) (op : BinaryOp) (op1 op2 : Expr)
  | boolean (loc : Loc) (op : BooleanOp) (op1 op2 : Expr)
  | unary (loc : Loc) (op : UnaryOp) (operand : Expr)
  | lit (loc : Loc) (typ : LiteralType) (value : String)
deriving Repr

mutual

def Expr.beq : Expr → Expr → Bool
  | .bad l m, .bad l2 m2 => l == l2 && m == m2
  | .funcDecl l n b, .funcDecl l2 n2 b2 => l == l2 && n == n2 && Expr.beqList b b2
  | .varDecl l n v r, .varDecl l2 n2 v2 r2 =>
      l == l2 && n == n2 && Expr.beq v v2 && r == r2
  | .funcCall l n a r, .funcCall l2 n2 a2 r2 =>
      l == l2 && n == n2 && Expr.beqList a a2 && r == r2
  | .ident l n, .ident l2 n2 => l == l2 && n == n2
  | .ifE l c t e, .ifE l2 c2 t2 e2 =>
      l == l2 && Expr.beq c c2 && Expr.beqList t t2 && Expr.beqList e e2
  | .binary l o a b, .binary l2 o2 a2 b2 =>
      l == l2 && o == o2 && Expr.beq a a2 && Expr.beq b b2
  | .boolean l o a b, .boolean l2 o2 a2 b2 =>
      l == l2 && o == o2 && Expr.beq a a2 && Expr.beq b b2
  | .unary l o a, .unary l2 o2 a2 => l == l2 && o == o2 && Expr.beq a a2
  | .lit l t v, .lit l2 t2 v2 => l == l2 && t == t2 && v == v2
  | _, _ => false

def Expr.beqList : List Expr → List Expr → Bool
  | [], [] => true
  | x :: xs, y :: ys => Expr.beq x y && Expr.beqList xs ys
  | _, _ => false

end

instance : BEq Expr := ⟨Expr.beq⟩

mutual

theorem Expr.beq_iff : ∀ a b : Expr, Expr.beq a b = true ↔ a = b
  | .bad l m, b => by cases b <;> simp [Expr.beq, and_assoc]
  | .funcDecl l n bd, b => by
      cases b <;> simp [Expr.beq, Expr.beqList_iff bd, and_assoc]
  | .varDecl l n v r, b => by
      cases b <;> simp [Expr.beq, Expr.beq_iff v, and_assoc]
  | .funcCall l n a r, b => by
      cases b <;> simp [Expr.beq, Expr.beqList_iff a, and_assoc]
  | .ident l n, b => by cases b <;> simp [Expr.beq, and_assoc]
  | .ifE l c t e, b => by
      cases b <;>
        simp [Expr.beq, Expr.beq_iff c, Expr.beqList_iff t, Expr.beqList_iff e, and_assoc]
  | .binary l o a1 a2, b => by
      cases b <;> simp [Expr.beq, Expr.beq_iff a1, Expr.beq_iff a2, and_assoc]
  | .boolean l o a1 a2, b => by
      cases b <;> simp [Expr.beq, Expr.beq_iff a1, Expr.beq_iff a2, and_assoc]
  | .unary l o a, b => by
      cases b <;> simp [Expr.beq, Expr.beq_iff a, and_assoc]
  | .lit l t v, b => by cases b <;> simp [Expr.beq, and_assoc]

theorem Expr.beqList_iff : ∀ xs ys : List Expr, Expr.beqList xs ys = true ↔ xs = ys
  | [], ys => by cases ys <;> simp [Expr.beqList]
  | x :: xs, ys => by
      cases ys <;> simp [Expr.beqList, Expr.beq_iff x, Expr.beqList_iff xs]

end

instance : DecidableEq Expr := fun a b =>
  decidable_of_iff (Expr.beq a b = true) (Expr.beq_iff a b)

/-- `ContextAnalyzer.resolve`: type of an expression.  `none` models a
Go run-time panic (nil `*BasicType` dereference reachable through the
unary branch).  In the unary case the Go code is
`if t, ok := resolve(operand).(*BasicType); ok && t.Typ != "int"`: when
the operand's type is a non-nil `*BasicType` other than int it emits
`UndefinedUnitaryError`; in every other case the `else` branch returns
`t`, the result of the type assertion, which is the nil `*BasicType`
whenever the assertion failed. -/
def resolve (st : AState) : Expr → Option (Ty × AState)
  | .bad loc msg =>
      some (.err typeErrBadExpression, st.addError (.badExpr loc msg))
  | .ident loc name =>
      match st.stab.get name with
      | some t => some (t, st)
      | none => some (.err typeErrUndefined, st.addError (.undefined loc name))
  | .binary loc op e1 e2 =>
      match resolve st e1 with
      | none => none
      | some (t1, st1) =>
        match resolve st1 e2 with
        | none => none
        | some (t2, st2) =>
          if isErrorType t1 then some (t1, st2)
          else if isErrorType t2 then some (t2, st2)
          else
            match equals t1 t2 with
            | none => none
            | some false =>
                some (.err typeErrIncompatible, st2.addError (.incompatibleTypes loc t1 t2))
            | some true =>
              match isOpDefined t1 op with
              | none => none
              | some false =>
                  some (.err typeErrBadOp, st2.addError (.undefinedOperation loc t1 op))
              | some true => some (t1, st2)
  | .unary loc op operand =>
      match resolve st operand with
      | none => none
      | some (t0, st1) =>
        match t0 with
        | .basic s =>
            if s != "int" then
              some (.err typeErrBadOp, st1.addError (.undefinedUnitary loc (.basic s) op))
            else
              some (.basic s, st1)
        | .basicNil => none
        | _ => some (.basicNil, st1)
  | .lit _ .string _ => some (.basic "string", st)
  | .lit _ .number _ => some (.basic "int", st)
  | _ => some (.err "unknown", st)

/-- `ContextAnalyzer.addFunction`: enter the declared function as a bare
`FuncType{}` (arguments and returns are never populated). -/
def addFunction (stab : SymbolTable) (name : String) : SymbolTable :=
  stab.add name (.func [] [])

/-- The argument loop of the `FuncCall` case of `analyze`:
`e.ResolvedTypes = append(e.ResolvedTypes, c.resolve(&stab, arg))` for
each argument in order. -/
def resolveArgs (st : AState) : List Expr → Option (List Ty × AState)
  | [] => some ([], st)
  | a :: rest =>
      match resolve st a with
      | none => none
      | some (t, st1) =>
        match resolveArgs st1 rest with
        | none => none
        | some (ts, st2) => some (t :: ts, st2)

mutual

/-- `ContextAnalyzer.analyze`.  Returns the updated symbol table
together with the (possibly mutated) node: `VariableDecl.ResolvedType`
is assigned and `FuncCall.ResolvedTypes` is appended to in place in Go;
the value embedding returns the rewritten node.  Statement kinds without
a `case` in the Go type switch (literals, `IfExpr`, `BooleanExpr`) fall
through unchanged. -/
def analyze (st : AState) : Expr → Option (AState × Expr)
  | .bad loc msg => some (st.addError (.badExpr loc msg), .bad loc msg)
  | .funcDecl loc name body =>
      match analyzeChildren { st with stab := addFunction st.stab name } body with
      | none => none
      | some (stF, body') => some (stF, .funcDecl loc name body')
  | .varDecl loc name value _ =>
      match resolve st value with
      | none => none
      | some (t, st1) =>
          some ({ st1 with stab := st1.stab.add name t }, .varDecl loc name value (some t))
  | .funcCall loc name args rts =>
      match st.stab.get name with
      | none => some (st.addError (.undefined loc name), .funcCall loc name args rts)
      | some _ =>
        match resolveArgs st args with
        | none => none
        | some (ts, st1) => some (st1, .funcCall loc name args (rts ++ ts))
  | .ident loc name =>
      match st.stab.get name with
      | none => some (st.addError (.undefined loc name), .ident loc name)
      | some _ => some (st, .ident loc name)
  | .binary loc op e1 e2 =>
      match resolve st (.binary loc op e1 e2) with
      | none => none
      | some (_, st1) => some (st1, .binary loc op e1 e2)
  | .unary loc op operand =>
      match resolve st (.unary loc op operand) with
      | none => none
      | some (_, st1) => some (st1, .unary loc op operand)
  | e => some (st, e)

/-- The `FuncDecl` body loop:
`for _, child := range e.Body { stab.Import(c.analyze(stab, child)) }`.
Each child is analyzed against the current table; the child's resulting
table (entries and its full error list) is then imported back. -/
def analyzeChildren (st : AState) : List Expr → Option (AState × List Expr)
  | [] => some (st, [])
  | child :: rest =>
      match analyze st child with
      | none => none
      | some (stChild, child') =>
        match
          analyzeChildren ⟨st.stab.importTab stChild.stab, stChild.nextId⟩ rest
        with
        | none => none
        | some (stF, rest') => some (stF, child' :: rest')

end

/-- `AnnotatedExpr`: a statement paired with the snapshot
(`stab.Copy()`) of the symbol table produced while analyzing it.
Modelled from the spec: the defining source file is not under src; the
shape `{Stab, Expr}` is the one used by `semantics.go` and `ir.go`. -/
structure AnnotatedExpr where
  stab : SymbolTable
  expr : Expr
deriving DecidableEq, Repr

/-- The annotated `AST` built by `ContextAnalyzer.Do`.  Modelled from
the spec for the field list (`Global`, `Filename`, `Statements`,
`Errors`), which is exactly the set of fields `semantics.go` populates. -/
structure AST where
  global : SymbolTable
  filename : String
  statements : List AnnotatedExpr
  errors : List CErr
deriving DecidableEq, Repr

/-- The duplicate-suppression loop of `ContextAnalyzer.Do`: append each
statement error unless an error `err2` with `err == err2` is already
present.  Go `==` on two stored errors (interface values holding
pointers) is pointer identity, i.e. equality of allocation `id`s. -/
def mergeErrors (acc : List CErr) : List CErr → List CErr
  | [] => acc
  | e :: es =>
      if acc.any (fun e2 => e.id == e2.id) then mergeErrors acc es
      else mergeErrors (acc ++ [e]) es

/-- The per-statement loop of `ContextAnalyzer.Do`: analyze each cached
expression against a fresh copy of the global table, snapshot the
result, and merge its errors into the top-level list.  Returns the
statements, merged errors, the mutated cache, and the final allocation
counter. -/
def doLoop (global : SymbolTable) (ctr : Nat) (stmts : List AnnotatedExpr)
    (errs : List CErr) : List Expr → Option (List AnnotatedExpr × List CErr × List Expr × Nat)
  | [] => some (stmts, errs, [], ctr)
  | e :: rest =>
      match analyze ⟨global, ctr⟩ e with
      | none => none
      | some (stR, e') =>
        match
          doLoop global stR.nextId (stmts ++ [⟨stR.stab, e'⟩])
            (mergeErrors errs stR.stab.errors) rest
        with
        | none => none
        | some (stmts', errs', cache, ctr') => some (stmts', errs', e' :: cache, ctr')

/-- `ContextAnalyzer.Do`: build the annotated AST from the cached
expression stream (the expressions the parser produced before `EOS`).
`none` models a Go run-time panic during analysis.  Besides the AST it
returns the mutated cache (the same nodes, as left by this run) and the
final allocation counter. -/
def doPass (global : SymbolTable) (filename : String) (ctr : Nat) (exprs : List Expr) :
    Option (AST × List Expr × Nat) :=
  match doLoop global ctr [] [] exprs with
  | none => none
  | some (stmts, errs, cache, ctr') =>
      some ({ global := global, filename := filename, statements := stmts, errors := errs },
        cache, ctr')

/-- Structural (pointer-free) view of an error list: just the payloads. -/
def errsData (l : List CErr) : List CompileErrorData :=
  l.map (fun e => e.data)

/-- Structural equality of annotated ASTs, the equality Go's deep
comparison (`reflect.DeepEqual`, as used by the repository's
`assert.Equal` tests) computes: it follows pointers to their contents,
so error allocation identities are ignored and only payloads compare. -/
def astEqStruct (a b : AST) : Prop :=
  a.global.entries = b.global.entries ∧ errsData a.global.errors = errsData b.global.errors ∧
  a.filename = b.filename ∧
  a.statements.map (fun s => (s.stab.entries, errsData s.stab.errors, s.expr)) =
    b.statements.map (fun s => (s.stab.entries, errsData s.stab.errors, s.expr)) ∧
  errsData a.errors = errsData b.errors

instance (a b : AST) : Decidable (astEqStruct a b) := by
  unfold astEqStruct
  infer_instance

mutual

/-- No statement (recursively through function bodies) is a function
call carrying arguments: the only annotation whose in-place mutation is
not idempotent — `FuncCall.ResolvedTypes` — is then never appended
to. -/
def noArgCall : Expr → Bool
  | .funcCall _ _ args _ => args.isEmpty
  | .funcDecl _ _ body => noArgCallList body
  | _ => true

def noArgCallList : List Expr → Bool
  | [] => true
  | e :: rest => noArgCall e && noArgCallList rest

end

/-- Renumber an error allocated at or after clock `a` to the
corresponding allocation of a run whose clock started at `b` instead:
the analyzer's control flow never depends on the identifiers, so a
rerun performs the identical allocation sequence shifted by the clock
offset. -/
def shiftE (a b : Nat) (e : CErr) : CErr :=
  ⟨e.id - a + b, e.data⟩

def shiftStab (a b : Nat) (s : SymbolTable) : SymbolTable :=
  ⟨s.entries, s.errors.map (shiftE a b)⟩

def shiftSt (a b : Nat) (s : AState) : AState :=
  ⟨shiftStab a b s.stab, s.nextId - a + b⟩

def shiftAnn (a b : Nat) (ann : AnnotatedExpr) : AnnotatedExpr :=
  ⟨shiftStab a b ann.stab, ann.expr⟩

/-- All identifiers in the list were allocated at or after clock `a`. -/
def IdsFrom (a : Nat) (l : List CErr) : Prop :=
  ∀ e ∈ l, a ≤ e.id

/-!
## Lexer

Embedding of `lexer.go` (the current revision, packed alongside
`ir_test.go`): token kinds, the state machine flattened into one
recursive function (each branch corresponds to one `lexerState`
function), and the pull interface over the output channel.  The const
block numbers the `TokenType` constants with `iota` starting after the
`EOF rune = 0` spec, so `TokenError = 1`, `TokenEOF = 2`, ….  Go models
end-of-stream as the rune `0`; consequently a NUL character inside the
input is indistinguishable from end-of-stream to every state, except
that reading it advances `pos` (a genuine read) while true end-of-stream
does not; `peek` skips the position rollback exactly when the rune read
was `0`.  The embedding reproduces this bookkeeping.
-/

def tokenError : Nat := 1

def tokenEOF : Nat := 2

def tokenNumber : Nat := 3

def tokenString : Nat := 4

def tokenIdentifier : Nat := 5

def tokenFunc : Nat := 6

def tokenPlus : Nat := 7

def tokenMinus : Nat := 8

def tokenMulti : Nat := 9

def tokenDiv : Nat := 10

def tokenDeclaration : Nat := 11

def tokenLineComment : Nat := 12

def tokenOpenParentheses : Nat := 13

def tokenCloseParentheses : Nat := 14

def tokenOpenCurly : Nat := 15

def tokenCloseCurly : Nat := 16

def tokenComma : Nat := 17

/-- Modelled from the spec: the final lexer's `TokenIf`/`TokenElse`
constants are referenced by the repository's lexer and parser tests but
their defining revision of `lexer.go` is not under src.  Their exact
numeric values are unknown; they are assigned fresh codes distinct from
every present constant. -/
def tokenIf : Nat := 100

/-- Modelled from the spec: see `tokenIf`. -/
def tokenElse : Nat := 101

/-- `Location{Start, End, File}`. -/
structure Location where
  start : Nat
  stop : Nat
  file : String
deriving DecidableEq, Repr

/-- `Token{Typ, Value, Loc}`.  `loc = none` is a nil `*Location`
(`errorf` emits tokens without location data). -/
structure Token where
  typ : Nat
  value : String
  loc : Option Location
deriving DecidableEq, Repr

/-- The zero value of `Token`: what a receive on the closed output
channel yields.  Its `Typ` is `0`, which is not `TokenEOF` (2) — it is
no declared constant at all, since `TokenError` starts at 1. -/
def zeroToken : Token := ⟨0, "", none⟩

/-- `keywordTable`.  The entry for `func` is in the packed sources; the
`if` and `else` entries are modelled from the spec (§3: reserved words
`func`, `if`, `else` matched after identifier scanning via a fixed
keyword table), since the final `lexer.go` revision containing them is
not under src. -/
def keywordTable (s : String) : Option Nat :=
  if s == "func" then some tokenFunc
  else if s == "if" then some tokenIf
  else if s == "else" then some tokenElse
  else none

/-- `operatorTable` as packed under src (the final revision's entries
for `*`, `/` and `==` are absent; no claim needs them). -/
def operatorTable (s : String) : Option Nat :=
  if s == "+" then some tokenPlus
  else if s == "-" then some tokenMinus
  else if s == ":=" then some tokenDeclaration
  else if s == "//" then some tokenLineComment
  else if s == "(" then some tokenOpenParentheses
  else if s == ")" then some tokenCloseParentheses
  else if s == "\x7b" then some tokenOpenCurly
  else if s == "\x7d" then some tokenCloseCurly
  else if s == "," then some tokenComma
  else none

/-- `unicode.IsSpace` restricted to the ASCII white-space runes (the
inputs of interest contain no exotic Unicode spacing). -/
def isSpaceGo (c : Char) : Bool :=
  c == ' ' || c == '\t' || c == '\n' || c == '\r' || c == '\x0b' || c == '\x0c'

/-- `unicode.IsLetter` restricted to ASCII letters (non-ASCII letters
are abstracted away; no claim involves them). -/
def isLetterGo (c : Char) : Bool :=
  c.isAlpha

/-- `'0' <= r && r <= '9'`. -/
def isDigitGo (c : Char) : Bool :=
  c.isDigit

/-- Position adjustment of the final, failing `peek` of a scanning
loop: peeking a NUL advances `pos` permanently (`next` counted the read
and `peek` only rolls back for non-zero runes); peeking end-of-stream
or any other rune leaves `pos` unchanged. -/
def stopAdj : List Char → Nat
  | '\x00' :: _ => 1
  | _ => 0

def mkTok (fname : String) (t : Nat) (v : String) (start stop : Nat) : Token :=
  ⟨t, v, some ⟨start, stop, fname⟩⟩

/-- The rune `peek` returns: the head of the stream, or the rune `0` at
end-of-stream. -/
def peekChar : List Char → Char
  | [] => '\x00'
  | c :: _ => c

/-- The extra position increment a `peek` leaves behind: peeking a NUL
skips the rollback (see the module comment), everything else leaves
`pos` unchanged. -/
def peekPosAdj : List Char → Nat
  | '\x00' :: _ => 1
  | _ => 0

/-- `endState`/`emmitNext(TokenEOF)`: the EOF token's value is
`string(l.next())` — the rune `0` at end-of-stream (no position
advance), or the next input character (consumed) otherwise. -/
def emitEOF (fname : String) (input : List Char) (pos start : Nat) : Token :=
  match input with
  | [] => mkTok fname tokenEOF "\x00" start pos
  | c :: _ => mkTok fname tokenEOF (String.singleton c) start (pos + 1)

/-- The scanning loop of `stringState` after the opening quote:
`(content, rest, closed, consumed)`.  The loop reads with `next`, so a
NUL character is consumed before the unclosed-string error fires, while
true end-of-stream consumes nothing. -/
def strScan : List Char → List Char × List Char × Bool × Nat
  | [] => ([], [], false, 0)
  | c :: r =>
      if c = '"' then ([], r, true, 1)
      else if c = '\x00' then ([], r, false, 1)
      else
        match strScan r with
        | (s, rest, b, n) => (c :: s, rest, b, n + 1)

theorem dropWhile_length_le (p : Char → Bool) (l : List Char) :
    (List.dropWhile p l).length ≤ l.length := by
  induction l with
  | nil => simp
  | cons a t ih =>
      by_cases h : p a
      · simp only [List.dropWhile, h, List.length_cons]
        omega
      · simp only [List.dropWhile, h]
        simp

theorem tail_length_le (l : List Char) : l.tail.length ≤ l.length := by
  cases l <;> simp

theorem strScan_rest_length : ∀ l : List Char, (strScan l).2.1.length ≤ l.length := by
  intro l
  induction l with
  | nil => simp [strScan]
  | cons c r ih =>
      by_cases h1 : c = '"'
      · simp [strScan, h1]
      · by_cases h2 : c = '\x00'
        · simp [strScan, h1, h2]
        · simp only [strScan, h1, h2, if_false]
          rcases hsr : strScan r with ⟨s, rest, b, n⟩
          rw [hsr] at ih
          simp_all
          omega

theorem strScan_rest_length_of_eq {l content rem : List Char} {b : Bool} {n : Nat}
    (h : strScan l = (content, rem, b, n)) : rem.length ≤ l.length := by
  have h1 := strScan_rest_length l
  rw [h] at h1
  simpa using h1

/-- The lexer's state machine run to completion: the sequence of tokens
sent on the output channel by `Lexer.Do` before it closes the channel.
Each branch is one `lexerState`; the dispatch mirrors `startState`'s
switch (whitespace, end-of-input, digit, quote, letter, operator), and
every state returns to `startState` after emitting, except `endState`
and `errorf` (which runs `endState` next, so an `Error` token is
followed by one final `EOF` token). -/
def lexRun (fname : String) (input : List Char) (pos start : Nat) : List Token :=
  match input with
  | [] => [emitEOF fname [] pos start]
  | c :: rest =>
    if isSpaceGo c then
      lexRun fname rest (pos + 1) start
    else if c = '\x00' then
      [emitEOF fname (c :: rest) (pos + 1) start]
    else if isDigitGo c then
      -- the guard gives `takeWhile isDigitGo (c :: rest) = c :: takeWhile isDigitGo rest`
      let tk := c :: rest.takeWhile isDigitGo
      let rem := rest.dropWhile isDigitGo
      let pos2 := pos + tk.length + stopAdj rem
      mkTok fname tokenNumber (String.mk tk) start pos2 :: lexRun fname rem pos2 pos2
    else if c = '"' then
      match h : strScan rest with
      | (content, rem, true, n) =>
          let pos2 := pos + 1 + n
          mkTok fname tokenString (String.mk content) start pos2 :: lexRun fname rem pos2 pos2
      | (content, rem, false, n) =>
          [⟨tokenError, "unclosed string: " ++ String.mk content, none⟩,
            emitEOF fname rem (pos + 1 + n) start]
    else if isLetterGo c then
      -- the guard gives `takeWhile isLetterGo (c :: rest) = c :: takeWhile isLetterGo rest`
      let tk := c :: rest.takeWhile isLetterGo
      let rem := rest.dropWhile isLetterGo
      let pos2 := pos + tk.length + stopAdj rem
      let w := String.mk tk
      let t := match keywordTable w with
        | some k => k
        | none => tokenIdentifier
      mkTok fname t w start pos2 :: lexRun fname rem pos2 pos2
    else if c = ':' ∨ c = '/' then
      -- two-rune attempt: peek one more rune
      let p := peekChar rest
      let posPk := pos + 1 + peekPosAdj rest
      let op := String.mk [c, p]
      match operatorTable op with
      | some tok =>
          let rest2 := rest.tail
          let pos3 := posPk + 1
          if tok = tokenLineComment then
            let cs := rest2.takeWhile (fun ch => ch ≠ '\n' && ch ≠ '\x00')
            let rem := rest2.dropWhile (fun ch => ch ≠ '\n' && ch ≠ '\x00')
            let pos4 := pos3 + cs.length + stopAdj rem
            mkTok fname tokenLineComment (String.mk cs) start pos4 :: lexRun fname rem pos4 pos4
          else
            mkTok fname tok op start pos3 :: lexRun fname rest2 pos3 pos3
      | none =>
        match operatorTable (String.singleton c) with
        | some tok => mkTok fname tok (String.singleton c) start posPk :: lexRun fname rest posPk posPk
        | none =>
            [⟨tokenError, "invalid symbol '" ++ String.singleton c ++ "'", none⟩,
              emitEOF fname rest posPk start]
    else
      match operatorTable (String.singleton c) with
      | some tok =>
          mkTok fname tok (String.singleton c) start (pos + 1) :: lexRun fname rest (pos + 1) (pos + 1)
      | none =>
          [⟨tokenError, "invalid symbol '" ++ String.singleton c ++ "'", none⟩,
            emitEOF fname rest (pos + 1) start]
termination_by input.length
decreasing_by
  · simp only [List.length_cons]
    omega
  · simp only [List.length_cons]
    exact Nat.lt_succ_of_le (dropWhile_length_le _ _)
  · simp only [List.length_cons]
    exact Nat.lt_succ_of_le (strScan_rest_length_of_eq h)
  · simp only [List.length_cons]
    exact Nat.lt_succ_of_le (dropWhile_length_le _ _)
  · simp only [List.length_cons]
    exact Nat.lt_succ_of_le (le_trans (dropWhile_length_le _ _) (tail_length_le _))
  · simp only [List.length_cons]
    exact Nat.lt_succ_of_le (tail_length_le _)
  · simp only [List.length_cons]
    omega
  · simp only [List.length_cons]
    omega

/-- `Lexer.Run` over a string input (`NewLexerFromReader` with a string
reader): the full emitted token stream. -/
def lexTokens (fname : String) (s : String) : List Token :=
  lexRun fname s.data 0 0

/-- The pull interface `Lexer.Get` (`<-l.Chan()`): the `n`-th receive
yields the `n`-th emitted token, and every receive after the channel is
closed yields the zero value of `Token`. -/
def getTok (toks : List Token) (n : Nat) : Token :=
  toks.getD n zeroToken

/-!
## IR lowering

Embedding of `ir.go`.  llir values are an inductive: integer constants,
functions, and instruction results (instructions are values in llir;
each created instruction receives a fresh identifier standing for its
object identity).  Blocks are mutable llir objects referenced from
several places, so they live in a store indexed by creation-order block
identifiers; `f.Blocks` is the ordered identifier list attached to a
function.  `none` models the Go panics (`ValueLookup.Get` on an unknown
name, string literals, unparsable integers, `recursiveLoad` on
unsupported nodes, `blocks[0]` on an empty slice).
-/

inductive IRValue where
  | constInt (n : Int)
  | funcRef (name : String)
  | instRef (id : Nat)
  | nilVal
deriving DecidableEq, Repr

inductive Inst where
  | add (id : Nat) (v1 v2 : IRValue)
  | sub (id : Nat) (v1 v2 : IRValue)
  | mul (id : Nat) (v1 v2 : IRValue)
  | sdiv (id : Nat) (v1 v2 : IRValue)
  | icmpEq (id : Nat) (v1 v2 : IRValue)
  | call (id : Nat) (callee : IRValue) (args : List IRValue)
deriving DecidableEq, Repr

inductive Term where
  | ret
  | br (dst : Nat)
  | condbr (cond : IRValue) (thenDst elseDst : Nat)
deriving DecidableEq, Repr

/-- A basic block's mutable contents: its instruction list and its
terminator (`none` until one of `NewRet`/`NewBr`/`NewCondBr` runs). -/
structure BlockData where
  insts : List Inst
  term : Option Term
deriving DecidableEq, Repr

/-- `LLVMIRBuilder` plus the llir module state it mutates: the value
environment (`ValueLookup`, a Go map embedded as an association list),
fresh-identifier counters, the block store, and the module's functions
(name and ordered block-identifier list). -/
structure IRBuilder where
  values : List (String × IRValue)
  nextInstId : Nat
  nextBlockId : Nat
  blocks : List (Nat × BlockData)
  funcs : List (String × List Nat)
deriving DecidableEq, Repr

/-- `ValueLookup.Set` (map assignment). -/
def valSet (l : List (String × IRValue)) (name : String) (v : IRValue) :
    List (String × IRValue) :=
  match l with
  | [] => [(name, v)]
  | (k, w) :: rest => if k == name then (name, v) :: rest else (k, w) :: valSet rest name v

/-- `ValueLookup.Get`; `none` is the Go panic on an undefined
identifier. -/
def valGet (l : List (String × IRValue)) (name : String) : Option IRValue :=
  match l.find? (fun p => p.1 == name) with
  | some p => some p.2
  | none => none

/-- `ir.NewBlock("")` / `f.NewBlock("")`: allocate a fresh empty block
in the store and return its identifier. -/
def newBlock (b : IRBuilder) : Nat × IRBuilder :=
  (b.nextBlockId,
    { b with
      nextBlockId := b.nextBlockId + 1
      blocks := b.blocks ++ [(b.nextBlockId, ⟨[], none⟩)] })

/-- `block.Insts = append(block.Insts, ...)` on the block `bid`. -/
def blockAppend (b : IRBuilder) (bid : Nat) (ins : List Inst) : IRBuilder :=
  { b with
    blocks := b.blocks.map (fun p => if p.1 == bid then (p.1, ⟨p.2.insts ++ ins, p.2.term⟩) else p) }

/-- `block.NewRet` / `NewBr` / `NewCondBr`: set the terminator of the
block `bid`. -/
def blockSetTerm (b : IRBuilder) (bid : Nat) (t : Term) : IRBuilder :=
  { b with
    blocks := b.blocks.map (fun p => if p.1 == bid then (p.1, ⟨p.2.insts, some t⟩) else p) }

def freshInst (b : IRBuilder) : Nat × IRBuilder :=
  (b.nextInstId, { b with nextInstId := b.nextInstId + 1 })

/-- `strconv.ParseInt(value, 10, 32)`; `none` (the surrounding panic)
for anything malformed or outside the signed 32-bit range. -/
def digitsValAux (acc : Nat) : List Char → Option Nat
  | [] => some acc
  | c :: r => if c.isDigit then digitsValAux (acc * 10 + (c.toNat - 48)) r else none

/-- Decimal digit-string value; `none` on the empty string or any
non-digit character. -/
def digitsVal : List Char → Option Nat
  | [] => none
  | ds => digitsValAux 0 ds

def parseInt32 (s : String) : Option Int :=
  let signed : Option Int :=
    match s.data with
    | '-' :: ds => (digitsVal ds).map (fun n => -(n : Int))
    | '+' :: ds => (digitsVal ds).map (fun n => (n : Int))
    | ds => (digitsVal ds).map (fun n => (n : Int))
  match signed with
  | none => none
  | some n => if n < -(2 ^ 31) || n > 2 ^ 31 - 1 then none else some n

/-- `isBlockExpr`: only `IfExpr` introduces control flow. -/
def isBlockExpr : Expr → Bool
  | .ifE _ _ _ _ => true
  | _ => false

mutual

/-- `LLVMIRBuilder.recursiveLoad` merged with the expression-specific
helpers it dispatches to (`loadLiteral`/`loadLiteralInt`,
`binaryExpression`, `booleanExpression`, `unaryExpression`).  Returns
the expression's value and the instruction sequence computing it. -/
def recursiveLoad (b : IRBuilder) : Expr → Option (IRValue × List Inst × IRBuilder)
  | .lit _ .number v =>
      match parseInt32 v with
      | none => none
      | some n => some (.constInt n, [], b)
  | .lit _ .string _ => none
  | .binary _ op e1 e2 =>
      match recursiveLoad b e1 with
      | none => none
      | some (v1, i1, b1) =>
        match recursiveLoad b1 e2 with
        | none => none
        | some (v2, i2, b2) =>
          match freshInst b2 with
          | (iid, b3) =>
            let inst := match op with
              | .add => Inst.add iid v1 v2
              | .sub => Inst.sub iid v1 v2
              | .mul => Inst.mul iid v1 v2
              | .div => Inst.sdiv iid v1 v2
            some (.instRef iid, i1 ++ i2 ++ [inst], b3)
  | .boolean _ .eq e1 e2 =>
      match recursiveLoad b e1 with
      | none => none
      | some (v1, i1, b1) =>
        match recursiveLoad b1 e2 with
        | none => none
        | some (v2, i2, b2) =>
          match freshInst b2 with
          | (iid, b3) => some (.instRef iid, i1 ++ i2 ++ [.icmpEq iid v1 v2], b3)
  | .unary _ .neg e =>
      match recursiveLoad b e with
      | none => none
      | some (v, ins, b1) =>
        match freshInst b1 with
        | (iid, b2) => some (.instRef iid, ins ++ [.mul iid v (.constInt (-1))], b2)
  | .ident _ n =>
      match valGet b.values n with
      | some v => some (v, [], b)
      | none => none
  | .funcCall _ n args _ => functionCall b n args
  | _ => none

/-- `LLVMIRBuilder.functionCall`: load the arguments in order, look the
callee up in the value environment, and emit the call.  The call's
value result is Go `nil` (`nilVal`). -/
def functionCall (b : IRBuilder) (name : String) (args : List Expr) :
    Option (IRValue × List Inst × IRBuilder) :=
  match loadArgs b args with
  | none => none
  | some (vals, ins, b1) =>
    match valGet b1.values name with
    | none => none
    | some callee =>
      match freshInst b1 with
      | (iid, b2) => some (.nilVal, ins ++ [.call iid callee vals], b2)

/-- The argument loop of `functionCall`. -/
def loadArgs (b : IRBuilder) : List Expr → Option (List IRValue × List Inst × IRBuilder)
  | [] => some ([], [], b)
  | a :: rest =>
      match recursiveLoad b a with
      | none => none
      | some (v, ins, b1) =>
        match loadArgs b1 rest with
        | none => none
        | some (vs, ins2, b2) => some (v :: vs, ins ++ ins2, b2)

/-- `LLVMIRBuilder.instructions`: statements without a case
(identifiers, literals, unary statements, …) contribute no
instructions. -/
def instructions (b : IRBuilder) : Expr → Option (List Inst × IRBuilder)
  | .binary loc op e1 e2 =>
      match recursiveLoad b (.binary loc op e1 e2) with
      | none => none
      | some (_, ins, b1) => some (ins, b1)
  | .varDecl _ n v _ =>
      match recursiveLoad b v with
      | none => none
      | some (val, ins, b1) => some (ins, { b1 with values := valSet b1.values n val })
  | .funcCall _ n args _ =>
      match functionCall b n args with
      | none => none
      | some (_, ins, b1) => some (ins, b1)
  | _ => some ([], b)

/-- A `for … instructions(e)` loop, concatenating the emitted
instruction sequences. -/
def instructionsSeq (b : IRBuilder) : List Expr → Option (List Inst × IRBuilder)
  | [] => some ([], b)
  | e :: rest =>
      match instructions b e with
      | none => none
      | some (ins, b1) =>
        match instructionsSeq b1 rest with
        | none => none
        | some (ins2, b2) => some (ins ++ ins2, b2)

/-- `LLVMIRBuilder.ifBranch`: a fresh condition block, a `then` block
(branching to `exit`), and — when an `else` body exists — an `else`
block (also branching to `exit`); the condition block ends in a
conditional branch to `then`/`else` (or `then`/`exit` without an
`else`).  Returns the produced blocks in order. -/
def ifBranch (b : IRBuilder) (cond : Expr) (cons els : List Expr) (exitId : Nat) :
    Option (List Nat × IRBuilder) :=
  match newBlock b with
  | (condId, b0) =>
    match recursiveLoad b0 cond with
    | none => none
    | some (condVal, condIns, b1) =>
      let b2 := blockAppend b1 condId condIns
      match newBlock b2 with
      | (trueId, b3) =>
        match instructionsSeq b3 cons with
        | none => none
        | some (tIns, b4) =>
          let b5 := blockSetTerm (blockAppend b4 trueId tIns) trueId (.br exitId)
          if els.isEmpty then
            some ([condId, trueId], blockSetTerm b5 condId (.condbr condVal trueId exitId))
          else
            match newBlock b5 with
            | (falseId, b6) =>
              match instructionsSeq b6 els with
              | none => none
              | some (fIns, b7) =>
                let b8 := blockSetTerm (blockAppend b7 falseId fIns) falseId (.br exitId)
                some ([condId, trueId, falseId],
                  blockSetTerm b8 condId (.condbr condVal trueId falseId))

/-- `LLVMIRBuilder.blocks`: dispatch block expressions; everything that
is not an `IfExpr` yields `nil` (the empty list). -/
def blocksOf (b : IRBuilder) (e : Expr) (exitId : Nat) : Option (List Nat × IRBuilder) :=
  match e with
  | .ifE _ c t els => ifBranch b c t els exitId
  | _ => some ([], b)

/-- The body loop of `LLVMIRBuilder.function`: block expressions open a
freshly allocated continuation block (allocated before the branch
blocks), the current block branches into the produced subgraph, and
subsequent instructions append to the continuation; non-block
statements append their instructions to the current block.  Returns the
block identifiers appended to `f.Blocks` by the loop and the final
current block. -/
def funcBodyLoop (b : IRBuilder) (curId : Nat) : List Expr → Option (List Nat × Nat × IRBuilder)
  | [] => some ([], curId, b)
  | stmt :: rest =>
      if isBlockExpr stmt then
        match newBlock b with
        | (contId, b0) =>
          match blocksOf b0 stmt contId with
          | none => none
          | some (bs, b1) =>
            match bs.head? with
            | none => none
            | some headId =>
              let b2 := blockSetTerm b1 curId (.br headId)
              match funcBodyLoop b2 contId rest with
              | none => none
              | some (ids, finId, b3) => some (bs ++ [contId] ++ ids, finId, b3)
      else
        match instructions b stmt with
        | none => none
        | some (ins, b1) =>
          match funcBodyLoop (blockAppend b1 curId ins) curId rest with
          | none => none
          | some (ids, finId, b3) => some (ids, finId, b3)

end

/-- `LLVMIRBuilder.function`: define the function value in the current
(outer) environment, open its entry block, save the environment and
work in a fresh copy inheriting it, lower the body, terminate the final
current block with `ret void`, and restore the saved environment (the
Go `defer`).  The function's ordered block list is the entry block
followed by the loop's blocks. -/
def lowerFunction (b : IRBuilder) (name : String) (body : List Expr) : Option IRBuilder :=
  let f : IRValue := .funcRef name
  let bV := { b with values := valSet b.values name f }
  match newBlock bV with
  | (entryId, b0) =>
    let prevVals := b0.values
    -- NewValueLookup() + Inherit(prevVals): a fresh copy of the saved environment
    let b1 := { b0 with values := prevVals }
    match funcBodyLoop b1 entryId body with
    | none => none
    | some (ids, finId, b2) =>
      let b3 := blockSetTerm b2 finId .ret
      some { b3 with values := prevVals, funcs := b3.funcs ++ [(name, entryId :: ids)] }

/-- `NewLLVMIRBuilder`: a fresh module with the built-in `print`
installed (`defineBuiltins`).  The built-in's own body and the
`printf` declaration are llir plumbing internal to `builtins.go`;
lowering only observes the value binding and the module entry. -/
def newLLVMIRBuilder : IRBuilder :=
  { values := [("print", .funcRef "print")]
    nextInstId := 0
    nextBlockId := 0
    blocks := []
    funcs := [("print", [])] }

/-- The body `if 1 == 1 { print(1) } else { print(2) }` of seed
scenario 7 as a parsed function body (locations arbitrary). -/
def ifC8Body : List Expr :=
  [.ifE 1 (.boolean 2 .eq (.lit 3 .number "1") (.lit 4 .number "1"))
    [.funcCall 5 "print" [.lit 6 .number "1"] []]
    [.funcCall 7 "print" [.lit 8 .number "2"] []]]

/-- Pointwise-`Equals` leading segment: the receiver's elements all
`Equals` the corresponding elements of the other list, which may be
longer. -/
inductive EqualsLeading : List Ty → List Ty → Prop where
  | nil (ys : List Ty) : EqualsLeading [] ys
  | cons {x y : Ty} {xs ys : List Ty} (h : equals x y = some true)
      (t : EqualsLeading xs ys) : EqualsLeading (x :: xs) (y :: ys)

theorem keywordTable_values {w : String} {k : Nat} (h : keywordTable w = some k) :
    k = tokenFunc ∨ k = tokenIf ∨ k = tokenElse := by
  unfold keywordTable at h
  split at h
  · exact Or.inl (Option.some.inj h).symm
  · split at h
    · exact Or.inr (Or.inl (Option.some.inj h).symm)
    · split at h
      · exact Or.inr (Or.inr (Option.some.inj h).symm)
      · exact absurd h (by simp)

theorem keyword_match_ne_eof (w : String) :
    (match keywordTable w with
      | some k => k
      | none => tokenIdentifier) ≠ tokenEOF := by
  rcases h : keywordTable w with _ | k
  · decide
  · rcases keywordTable_values h with h2 | h2 | h2 <;> subst h2 <;> decide

theorem operatorTable_ne_eof {s : String} {k : Nat} (h : operatorTable s = some k) :
    k ≠ tokenEOF := by
  unfold operatorTable at h
  repeat' split at h
  all_goals first
    | (cases Option.some.inj h; decide)
    | exact absurd h (by simp)

theorem stream_cons_spec {t : Token} {l : List Token}
    (hne : l ≠ []) (ht : t.typ ≠ tokenEOF) (hl : ∀ tk ∈ l.dropLast, tk.typ ≠ tokenEOF) :
    (t :: l) ≠ [] ∧ ∀ tk ∈ (t :: l).dropLast, tk.typ ≠ tokenEOF := by
  refine ⟨by simp, ?_⟩
  rw [List.dropLast_cons_of_ne_nil hne]
  intro tk h
  rcases List.mem_cons.1 h with h2 | h2
  · subst h2; exact ht
  · exact hl tk h2

/-- Auxiliary: the token stream `Lexer.Do` emits is never empty, and
only its final token can be `TokenEOF` (every state except `endState`
emits non-`EOF` kinds, and `endState` terminates the run). -/
theorem lexRun_spec (fname : String) : ∀ (input : List Char) (pos start : Nat),
    lexRun fname input pos start ≠ [] ∧
    ∀ tk ∈ (lexRun fname input pos start).dropLast, tk.typ ≠ tokenEOF := by
  intro input pos start
  induction input, pos, start using lexRun.induct fname
  case case1 pos start =>
    rw [lexRun.eq_1]
    simp
  case case2 pos start c tail hsp ih =>
    rw [lexRun.eq_2, if_pos hsp]
    exact ih
  case case3 pos start tail hns =>
    rw [lexRun.eq_2, if_neg hns, if_pos rfl]
    simp
  case case4 pos start c tail h1 h2 h3 tk rem pos2 ih =>
    rw [lexRun.eq_2, if_neg h1, if_neg h2, if_pos h3]
    exact stream_cons_spec ih.1 (by simp [mkTok, tokenNumber, tokenEOF]) ih.2
  case case5 pos start tail content rem n hscan pos2 h1 h2 h3 ih =>
    rw [lexRun.eq_2, if_neg h1, if_neg h2, if_neg h3, if_pos rfl]
    split
    · rename_i content2 rem2 n2 heq
      rw [hscan] at heq
      simp only [Prod.mk.injEq] at heq
      obtain ⟨e1, e2, e3, e4⟩ := heq
      subst e1
      subst e2
      subst e4
      exact stream_cons_spec ih.1 (by simp [mkTok, tokenString, tokenEOF]) ih.2
    · rename_i content2 rem2 n2 heq
      rw [hscan] at heq
      simp at heq
  case case6 pos start tail content rem n hscan h1 h2 h3 =>
    rw [lexRun.eq_2, if_neg h1, if_neg h2, if_neg h3, if_pos rfl]
    split
    · rename_i content2 rem2 n2 heq
      rw [hscan] at heq
      simp at heq
    · rename_i content2 rem2 n2 heq
      rw [hscan] at heq
      simp only [Prod.mk.injEq] at heq
      obtain ⟨e1, e2, e3, e4⟩ := heq
      refine ⟨by simp, ?_⟩
      intro tk h
      simp at h
      subst h
      simp [tokenError, tokenEOF]
  case case7 pos start c tail h1 h2 h3 h4 h5 tk rem pos2 ih =>
    rw [lexRun.eq_2, if_neg h1, if_neg h2, if_neg h3, if_neg h4, if_pos h5]
    refine stream_cons_spec ih.1 ?_ ih.2
    simp only [mkTok]
    exact keyword_match_ne_eof _
  case case8 pos start c tail h1 h2 h3 h4 h5 hor p posPk op rest2 pos3 cs rem pos4 hop ih =>
    rw [lexRun.eq_2, if_neg h1, if_neg h2, if_neg h3, if_neg h4, if_neg h5, if_pos hor]
    simp only [hop, if_true]
    exact stream_cons_spec ih.1 (by simp [mkTok, tokenLineComment, tokenEOF]) ih.2
  case case9 pos start c tail h1 h2 h3 h4 h5 hor p posPk op k hop rest2 pos3 hnc ih =>
    rw [lexRun.eq_2, if_neg h1, if_neg h2, if_neg h3, if_neg h4, if_neg h5, if_pos hor]
    simp only [hop]
    rw [if_neg hnc]
    refine stream_cons_spec ih.1 ?_ ih.2
    simpa [mkTok] using operatorTable_ne_eof hop
  case case10 pos start c tail h1 h2 h3 h4 h5 hor p posPk op hopn k hsing ih =>
    rw [lexRun.eq_2, if_neg h1, if_neg h2, if_neg h3, if_neg h4, if_neg h5, if_pos hor]
    simp only [hopn, hsing]
    refine stream_cons_spec ih.1 ?_ ih.2
    simpa [mkTok] using operatorTable_ne_eof hsing
  case case11 pos start c tail h1 h2 h3 h4 h5 hor p op hopn hsingn =>
    rw [lexRun.eq_2, if_neg h1, if_neg h2, if_neg h3, if_neg h4, if_neg h5, if_pos hor]
    simp only [hopn, hsingn]
    refine ⟨by simp, ?_⟩
    intro tk h
    simp at h
    subst h
    simp [tokenError, tokenEOF]
  case case12 pos start c tail h1 h2 h3 h4 h5 hor k hsing ih =>
    rw [lexRun.eq_2, if_neg h1, if_neg h2, if_neg h3, if_neg h4, if_neg h5, if_neg hor]
    simp only [hsing]
    refine stream_cons_spec ih.1 ?_ ih.2
    simpa [mkTok] using operatorTable_ne_eof hsing
  case case13 pos start c tail h1 h2 h3 h4 h5 hor hsingn =>
    rw [lexRun.eq_2, if_neg h1, if_neg h2, if_neg h3, if_neg h4, if_neg h5, if_neg hor]
    simp only [hsingn]
    refine ⟨by simp, ?_⟩
    intro tk h
    simp at h
    subst h
    simp [tokenError, tokenEOF]

/-- Auxiliary: every token before the last in the emitted stream has a
kind other than `TokenEOF`. -/
theorem lexRun_dropLast_ne_eof (fname : String) (input : List Char) (pos start : Nat) :
    ∀ tk ∈ (lexRun fname input pos start).dropLast, tk.typ ≠ tokenEOF :=
  (lexRun_spec fname input pos start).2
/-!
## Claims
-/

/-- C1, counterexample.  The claim asserts that a unary `-` over *any*
operand whose type is not `BasicType("int")` — including function types
— emits `UndefinedUnitaryError` and returns an error type.  But for an
operand resolving to a `FuncType` the type assertion in
`resolve`'s unary branch fails, the `else` branch returns the nil
`*BasicType`, and no error at all is recorded: the symbol table is
returned unchanged (no `UndefinedUnitaryError`) and the result is not a
`TypeErr`. -/
theorem C1_unary_counterexample :
    resolve ⟨⟨[("f", .func [] [])], []⟩, 0⟩ (.unary 7 .neg (.ident 3 "f")) =
      some (.basicNil, ⟨⟨[("f", .func [] [])], []⟩, 0⟩) ∧
    isErrorType .basicNil = false := by
  constructor
  · rfl
  · rfl

/-- C1 (amended).  Unary resolution resolves the operand and then: when
the operand's type is a `BasicType` other than `"int"`, it emits
`UndefinedUnitaryError` and returns `TypeErr(bad op)`; when it is
`BasicType("int")`, it returns that type with no new diagnostic; when it
is not a `BasicType` at all (`TypeErr`, `FuncType`, `AnyType`,
`ArgumentType`), it emits nothing and returns the nil `*BasicType`
value instead of an error type.  (A nil-`*BasicType` operand result
panics.) -/
theorem C1_unary_resolution (st st1 : AState) (loc : Loc) (op : UnaryOp)
    (operand : Expr) (t0 : Ty) (h : resolve st operand = some (t0, st1)) :
    (∀ s, t0 = .basic s → s ≠ "int" →
      resolve st (.unary loc op operand) =
        some (.err typeErrBadOp, st1.addError (.undefinedUnitary loc (.basic s) op))) ∧
    (t0 = .basic "int" → resolve st (.unary loc op operand) = some (.basic "int", st1)) ∧
    ((∀ s, t0 ≠ .basic s) → t0 ≠ .basicNil →
      resolve st (.unary loc op operand) = some (.basicNil, st1)) := by
  refine ⟨?_, ?_, ?_⟩
  · intro s hs hne
    subst hs
    simp [resolve, h, hne]
  · intro hs
    subst hs
    simp [resolve, h]
  · intro hb hn
    cases t0 with
    | basic s => exact absurd rfl (hb s)
    | basicNil => exact absurd rfl hn
    | err r => simp [resolve, h]
    | any => simp [resolve, h]
    | arg n t => simp [resolve, h]
    | func a r => simp [resolve, h]

/-- Witness for `C1_unary_resolution` at a concrete input: `-s` where
`s` is bound to `BasicType("string")`. -/
theorem C1_unary_resolution_witness :
    resolve ⟨⟨[("s", .basic "string")], []⟩, 0⟩ (.ident 1 "s") =
      some (.basic "string", ⟨⟨[("s", .basic "string")], []⟩, 0⟩) ∧
    resolve ⟨⟨[("s", .basic "string")], []⟩, 0⟩ (.unary 2 .neg (.ident 1 "s")) =
      some (.err typeErrBadOp,
        AState.addError ⟨⟨[("s", .basic "string")], []⟩, 0⟩
          (.undefinedUnitary 2 (.basic "string") .neg)) :=
  ⟨rfl,
    (C1_unary_resolution ⟨⟨[("s", .basic "string")], []⟩, 0⟩ ⟨⟨[("s", .basic "string")], []⟩, 0⟩
      2 .neg (.ident 1 "s") (.basic "string") rfl).1 "string" rfl (by decide)⟩

/-- C3, counterexample.  Equality is not symmetric on the constructible
types: `AnyType.Equals(BasicType("int"))` is `true` (any non-`TypeErr`
argument), but `BasicType("int").Equals(AnyType)` is `false` (the type
assertion to `*BasicType` fails). -/
theorem C3_equals_symmetry_counterexample :
    equals .any (.basic "int") = some true ∧ equals (.basic "int") .any = some false := by
  constructor
  · rfl
  · rfl

/-- C3 (amended).  `Equals` is symmetric on pairs of `BasicType`s, and
`TypeErr.Equals` returns `false` for every argument, including another
`TypeErr`; but symmetry fails in general: `AnyType` equals any
non-`TypeErr` type without being equal from the other side, and an
empty `FuncType` equals a non-empty one without the converse (prefix
comparison). -/
theorem C3_equals_symmetry :
    (∀ s1 s2 : String, equals (.basic s1) (.basic s2) = equals (.basic s2) (.basic s1)) ∧
    (∀ (r : String) (t : Ty), equals (.err r) t = some false) ∧
    equals .any (.basic "int") = some true ∧
    equals (.basic "int") .any = some false ∧
    equals (.func [] []) (.func [.arg "a" (.basic "int")] []) = some true ∧
    equals (.func [.arg "a" (.basic "int")] []) (.func [] []) = some false := by
  refine ⟨?_, ?_, rfl, rfl, rfl, rfl⟩
  · intro s1 s2
    by_cases h : s1 = s2
    · subst h; rfl
    · have h2 : s2 ≠ s1 := fun hc => h hc.symm
      simp [equals, h, h2]
  · intro r t
    cases t <;> rfl

/-- C4.  In binary resolution both operands are resolved first; if the
first operand's type is a `TypeErr` it is returned unchanged, and if
only the second's is, that one is returned unchanged.  In both cases
the resulting state is exactly the state after resolving the two
operands: the binary case appends no `IncompatibleTypesError` and no
`UndefinedOperationError` for the outer expression.  (Diagnostics
produced while resolving the operands themselves were already recorded
by those resolutions.) -/
theorem C4_binary_error_propagation (st st1 : AState) (loc : Loc) (op : BinaryOp)
    (e1 e2 : Expr) (t1 : Ty) (h1 : resolve st e1 = some (t1, st1)) :
    (isErrorType t1 = true →
      resolve st (.binary loc op e1 e2) = (resolve st1 e2).map (fun p => (t1, p.2))) ∧
    (∀ t2 st2, resolve st1 e2 = some (t2, st2) → isErrorType t1 = false →
      isErrorType t2 = true →
      resolve st (.binary loc op e1 e2) = some (t2, st2)) := by
  constructor
  · intro herr
    cases h2 : resolve st1 e2 with
    | none => simp [resolve, h1, h2]
    | some p =>
        obtain ⟨t2, st2⟩ := p
        simp [resolve, h1, h2, herr]
  · intro t2 st2 h2 hok herr
    simp [resolve, h1, h2, hok, herr]

/-- Witness for `C4_binary_error_propagation`: `x + 1` with `x`
undefined; the operand error (`TypeErr(undefined)`) propagates and the
only recorded diagnostic is the operand's own `UndefinedError`. -/
theorem C4_binary_error_propagation_witness :
    resolve ⟨⟨[], []⟩, 0⟩ (.ident 1 "x") =
      some (.err typeErrUndefined, ⟨⟨[], [⟨0, .undefined 1 "x"⟩]⟩, 1⟩) ∧
    resolve ⟨⟨[], []⟩, 0⟩ (.binary 5 .add (.ident 1 "x") (.lit 2 .number "1")) =
      some (.err typeErrUndefined, ⟨⟨[], [⟨0, .undefined 1 "x"⟩]⟩, 1⟩) := by
  refine ⟨rfl, ?_⟩
  have h := (C4_binary_error_propagation ⟨⟨[], []⟩, 0⟩ ⟨⟨[], [⟨0, .undefined 1 "x"⟩]⟩, 1⟩
    5 .add (.ident 1 "x") (.lit 2 .number "1") (.err typeErrUndefined) rfl).1 rfl
  simpa using h

/-- C5.  Lexing each of the reserved words `func`, `if`, `else` in
isolation runs identifier scanning and then the keyword-table lookup,
emitting the keyword's token kind (followed by the terminal `EOF`
token) and never an `Identifier` token.  The `if`/`else` table entries
and kinds are modelled from the spec (their lexer revision is not under
src). -/
theorem C5_reserved_words (fname : String) :
    (lexTokens fname "func").map Token.typ = [tokenFunc, tokenEOF] ∧
    (lexTokens fname "if").map Token.typ = [tokenIf, tokenEOF] ∧
    (lexTokens fname "else").map Token.typ = [tokenElse, tokenEOF] ∧
    tokenFunc ≠ tokenIdentifier ∧ tokenIf ≠ tokenIdentifier ∧ tokenElse ≠ tokenIdentifier := by
  refine ⟨?_, ?_, ?_, by decide, by decide, by decide⟩ <;>
    simp [lexTokens, lexRun, isSpaceGo, isDigitGo, isLetterGo, keywordTable, stopAdj,
      emitEOF, mkTok, String.mk]

/-- C6, counterexample.  On empty input the lexer emits its `EOF` token
and closes the output channel; the *next* `Get()` receives the channel
zero value, whose kind is `0` — not `TokenEOF` (2).  So the pull
interface does not keep yielding `EOF` tokens. -/
theorem C6_eof_counterexample :
    (getTok (lexTokens "t" "") 0).typ = tokenEOF ∧
    getTok (lexTokens "t" "") 1 = zeroToken ∧
    zeroToken.typ ≠ tokenEOF := by
  refine ⟨?_, ?_, by decide⟩ <;> simp [lexTokens, lexRun, getTok, emitEOF, mkTok]

/-- C6 (amended).  Once the lexer has produced its `EOF` token it emits
nothing further: `EOF` appears only as the final element of the emitted
stream (every earlier token has a different kind), and every `Get()`
past the end of the stream returns the zero-value token, whose kind is
`0`, not `TokenEOF`. -/
theorem C6_eof_terminal (fname s : String) :
    (∀ tk ∈ (lexTokens fname s).dropLast, tk.typ ≠ tokenEOF) ∧
    (∀ m, (lexTokens fname s).length ≤ m → getTok (lexTokens fname s) m = zeroToken) ∧
    zeroToken.typ = 0 ∧ tokenEOF = 2 := by
  refine ⟨?_, ?_, rfl, rfl⟩
  · exact fun tk h => lexRun_dropLast_ne_eof fname s.data 0 0 tk h
  · intro m hm
    exact List.getD_eq_default _ _ hm

/-- Witness for `C6_eof_terminal` at input `"x"`. -/
theorem C6_eof_terminal_witness :
    getTok (lexTokens "t" "x") 2 = zeroToken ∧ zeroToken.typ = 0 :=
  ⟨(C6_eof_terminal "t" "x").2.1 2
      (by simp [lexTokens, lexRun, isSpaceGo, isDigitGo, isLetterGo, keywordTable, stopAdj,
        emitEOF, mkTok]),
    (C6_eof_terminal "t" "x").2.2.1⟩

/-- C7, counterexample.  Lowering `func main () {}` from a fresh
builder does not restore the value environment to exactly its
pre-lowering state: `function` registers the function's own name in the
*outer* environment (`b.values.Set(expr.Name, f)`) before saving it, so
after lowering the environment has gained the `main` binding. -/
theorem C7_env_counterexample :
    (lowerFunction newLLVMIRBuilder "main" []).map (fun b => b.values) =
      some [("print", .funcRef "print"), ("main", .funcRef "main")] ∧
    newLLVMIRBuilder.values = [("print", .funcRef "print")] := by
  constructor
  · rfl
  · rfl

/-- C7 (amended).  After lowering a function, the builder's value
environment is exactly the pre-lowering environment extended (by Go map
assignment) with the binding of the lowered function's name to its
function value — the saved outer environment, which received the name
binding before the fresh inner environment was created.  In particular,
writes made to the fresh inner environment while lowering the body do
not leak outward. -/
theorem C7_env_restore (b : IRBuilder) (name : String) (body : List Expr)
    (b' : IRBuilder) (h : lowerFunction b name body = some b') :
    b'.values = valSet b.values name (.funcRef name) := by
  unfold lowerFunction at h
  simp only [newBlock] at h
  split at h
  · exact absurd h (by simp)
  · rename_i ids finId b2 heq
    cases Option.some.inj h
    rfl

/-- Witness for `C7_env_restore`: the empty `main`. -/
theorem C7_env_restore_witness :
    ∃ b', lowerFunction newLLVMIRBuilder "main" [] = some b' ∧
      b'.values = valSet newLLVMIRBuilder.values "main" (.funcRef "main") :=
  ⟨_, rfl, C7_env_restore newLLVMIRBuilder "main" [] _ rfl⟩

/-- C8, counterexample.  Lowering a function whose body is the single
statement `if 1 == 1 { print(1) } else { print(2) }` produces *five*
basic blocks, not four: the function's entry block is separate from
the condition block `ifBranch` allocates (the entry merely branches to
it unconditionally). -/
theorem C8_blocks_counterexample :
    ((lowerFunction newLLVMIRBuilder "main" ifC8Body).bind
      (fun b => (b.funcs.find? (fun p => p.1 == "main")).map (fun p => p.2.length))) =
      some 5 ∧ (5 : Nat) ≠ 4 := by
  constructor
  · simp [lowerFunction, funcBodyLoop, instructions, recursiveLoad, functionCall, loadArgs,
      instructionsSeq, ifBranch, blocksOf, parseInt32, digitsVal, digitsValAux, valGet, valSet,
      newBlock, blockAppend, blockSetTerm, freshInst, newLLVMIRBuilder, isBlockExpr, ifC8Body]
  · decide

/-- C8 (amended).  Lowering `func main` with body
`if 1 == 1 { print(1) } else { print(2) }` produces five basic blocks —
entry (0), condition (2), then (3), else (4) and join (1), in that
`f.Blocks` order — where the entry block branches unconditionally to
the condition block, the condition block computes `icmp eq 1 1` and
conditionally branches to then/else, both branches jump to the join
block, and the join block holds the final `ret`. -/
theorem C8_if_lowering :
    lowerFunction newLLVMIRBuilder "main" ifC8Body = some
      { values := [("print", .funcRef "print"), ("main", .funcRef "main")]
        nextInstId := 3
        nextBlockId := 5
        blocks := [(0, ⟨[], some (.br 2)⟩), (1, ⟨[], some .ret⟩),
          (2, ⟨[.icmpEq 0 (.constInt 1) (.constInt 1)], some (.condbr (.instRef 0) 3 4)⟩),
          (3, ⟨[.call 1 (.funcRef "print") [.constInt 1]], some (.br 1)⟩),
          (4, ⟨[.call 2 (.funcRef "print") [.constInt 2]], some (.br 1)⟩)]
        funcs := [("print", []), ("main", [0, 2, 3, 4, 1])] } := by
  simp [lowerFunction, funcBodyLoop, instructions, recursiveLoad, functionCall, loadArgs,
    instructionsSeq, ifBranch, blocksOf, parseInt32, digitsVal, digitsValAux, valGet, valSet,
    newBlock, blockAppend, blockSetTerm, freshInst, newLLVMIRBuilder, isBlockExpr, ifC8Body]

theorem equalsElems_of_leading {xs ys : List Ty} (h : EqualsLeading xs ys) :
    equalsElems xs ys = some true := by
  induction h with
  | nil ys => rfl
  | cons h t ih => simp [equalsElems, h, ih]

theorem find?_setEntry (l : List (String × Ty)) (name : String) (ty : Ty) :
    (setEntry l name ty).find? (fun p => p.1 == name) = some (name, ty) := by
  induction l with
  | nil => simp [setEntry]
  | cons p rest ih =>
      obtain ⟨k, v⟩ := p
      by_cases h : k == name
      · simp [setEntry, h]
      · simp [setEntry, h, ih]

theorem get_add (t : SymbolTable) (name : String) (ty : Ty) :
    (t.add name ty).get name = some ty := by
  unfold SymbolTable.get SymbolTable.add
  simp [find?_setEntry]

/-- C10.  `FuncType.Equals` is a prefix relation: it returns `true`
whenever the receiver's `Args` and `Returns` lists are pointwise-equal
leading segments of the argument's lists (the indexed loops only check
the receiver's indices).  In particular the empty `FuncType{}` — which
`addFunction` binds for every declared function — `Equals` every other
`FuncType`, whatever its arguments and returns. -/
theorem C10_functype_equality (args rets args2 rets2 : List Ty)
    (h1 : EqualsLeading args args2) (h2 : EqualsLeading rets rets2) :
    equals (.func args rets) (.func args2 rets2) = some true ∧
    (∀ (stab : SymbolTable) (name : String),
      (addFunction stab name).get name = some (.func [] [])) ∧
    equals (.func [] []) (.func args2 rets2) = some true := by
  refine ⟨?_, ?_, ?_⟩
  · simp [equals, equalsElems_of_leading h1, equalsElems_of_leading h2]
  · intro stab name
    exact get_add stab name _
  · simp [equals, equalsElems]

/-- C2, counterexample.  Feeding the analyzer the stream
`x` `x` (the same undefined identifier in two statements, with equal
locations) yields an AST whose error list holds two structurally-equal
`UndefinedError` entries: the duplicate check `err == err2` compares Go
interface values holding pointers — object identity — so two equal
errors allocated separately are both kept. -/
theorem C2_dedup_counterexample :
    (doPass globalSymbolTable "testing" 0 [.ident 0 "x", .ident 0 "x"]).map
        (fun r => errsData r.1.errors) =
      some [.undefined 0 "x", .undefined 0 "x"] ∧
    ¬ ([CompileErrorData.undefined 0 "x", .undefined 0 "x"]).Nodup := by
  constructor
  · rfl
  · decide

theorem mergeErrors_ids_nodup (l : List CErr) : ∀ acc : List CErr,
    (acc.map CErr.id).Nodup → ((mergeErrors acc l).map CErr.id).Nodup := by
  induction l with
  | nil =>
      intro acc h
      simpa [mergeErrors] using h
  | cons e es ih =>
      intro acc h
      by_cases hd : acc.any (fun e2 => e.id == e2.id)
      · simpa [mergeErrors, hd] using ih acc h
      · have hnotin : e.id ∉ acc.map CErr.id := by
          simp only [List.any_eq_true, beq_iff_eq] at hd
          simp only [List.mem_map]
          rintro ⟨x, hx, hxe⟩
          exact hd ⟨x, hx, hxe.symm⟩
        have h2 : ((acc ++ [e]).map CErr.id).Nodup := by
          simp only [List.map_append, List.map_cons, List.map_nil]
          rw [List.nodup_append]
          exact ⟨h, List.nodup_singleton _, by simpa [List.disjoint_singleton] using hnotin⟩
        simpa [mergeErrors, hd] using ih (acc ++ [e]) h2

theorem doLoop_errs_nodup : ∀ (exprs : List Expr) (global : SymbolTable) (ctr : Nat)
    (stmts : List AnnotatedExpr) (errs : List CErr)
    (out : List AnnotatedExpr × List CErr × List Expr × Nat),
    (errs.map CErr.id).Nodup → doLoop global ctr stmts errs exprs = some out →
    (out.2.1.map CErr.id).Nodup := by
  intro exprs
  induction exprs with
  | nil =>
      intro global ctr stmts errs out h hd
      simp only [doLoop] at hd
      cases Option.some.inj hd
      exact h
  | cons e rest ih =>
      intro global ctr stmts errs out h hd
      simp only [doLoop] at hd
      cases ha : analyze ⟨global, ctr⟩ e with
      | none => rw [ha] at hd; exact absurd hd (by simp)
      | some p =>
          rw [ha] at hd
          obtain ⟨stR, e'⟩ := p
          dsimp only at hd
          cases hrec : doLoop global stR.nextId (stmts ++ [⟨stR.stab, e'⟩])
              (mergeErrors errs stR.stab.errors) rest with
          | none => rw [hrec] at hd; exact absurd hd (by simp)
          | some q =>
              rw [hrec] at hd
              obtain ⟨stmts2, errs2, cache2, ctr2⟩ := q
              cases Option.some.inj hd
              simpa using ih global stR.nextId _ _ _ (mergeErrors_ids_nodup _ _ h) hrec

/-- C2 (amended).  The analyzer's duplicate suppression works up to
object identity, not structural equality: no two entries of the AST's
error list are the same error object (`err == err2` on interface values
holding pointers — here, equal allocation identifiers), because each
statement error is appended only after checking every error already in
the list.  Structurally-equal errors allocated separately (as in
`C2_dedup_counterexample`) are all kept. -/
theorem C2_errors_nodup (global : SymbolTable) (fname : String) (ctr : Nat)
    (exprs : List Expr) (ast : AST) (cache : List Expr) (ctrF : Nat)
    (h : doPass global fname ctr exprs = some (ast, cache, ctrF)) :
    (ast.errors.map CErr.id).Nodup := by
  unfold doPass at h
  cases hl : doLoop global ctr [] [] exprs with
  | none => rw [hl] at h; exact absurd h (by simp)
  | some out =>
      rw [hl] at h
      obtain ⟨stmts, errs, cache2, ctr2⟩ := out
      cases Option.some.inj h
      simpa using doLoop_errs_nodup exprs global ctr [] [] _ (by simp) hl

/-- Witness for `C2_errors_nodup` on the stream of
`C2_dedup_counterexample`. -/
theorem C2_errors_nodup_witness :
    ∃ (ast : AST) (cache : List Expr) (c : Nat),
      doPass globalSymbolTable "t" 0 [.ident 0 "x", .ident 0 "x"] = some (ast, cache, c) ∧
      (ast.errors.map CErr.id).Nodup := by
  cases hq : doPass globalSymbolTable "t" 0 [.ident 0 "x", .ident 0 "x"] with
  | none => exact absurd hq (by simp [doPass, doLoop, analyze, resolve, globalSymbolTable,
      SymbolTable.get, AState.addError, mergeErrors])
  | some r =>
      exact ⟨r.1, r.2.1, r.2.2, by simp [hq],
        C2_errors_nodup globalSymbolTable "t" 0 [.ident 0 "x", .ident 0 "x"]
          r.1 r.2.1 r.2.2 (by simp [hq])⟩

/-- C9, counterexample.  Running the annotation pass twice over the
stream `print(1)` does not yield equal ASTs: the pass appends the
argument types to `FuncCall.ResolvedTypes` in place, so the second run
leaves the call annotated with `[int, int]` where the first produced
`[int]`. -/
theorem C9_determinism_counterexample :
    ∃ (ast1 : AST) (cache1 : List Expr) (c1 : Nat) (ast2 : AST) (cache2 : List Expr) (c2 : Nat),
      doPass globalSymbolTable "testing" 0 [.funcCall 0 "print" [.lit 1 .number "1"] []] =
        some (ast1, cache1, c1) ∧
      doPass globalSymbolTable "testing" c1 cache1 = some (ast2, cache2, c2) ∧
      ¬ astEqStruct ast1 ast2 := by
  refine ⟨_, _, _, _, _, _, rfl, rfl, ?_⟩
  decide

/-- Witness for `C10_functype_equality`: a one-argument function type
against a longer two-argument one. -/
theorem C10_functype_equality_witness :
    equals (.func [.arg "a" (.basic "int")] [])
        (.func [.arg "a" (.basic "int"), .arg "b" (.basic "string")] [.basic "int"]) =
      some true ∧
    (addFunction ⟨[], []⟩ "f").get "f" = some (.func [] []) :=
  ⟨(C10_functype_equality [.arg "a" (.basic "int")] []
      [.arg "a" (.basic "int"), .arg "b" (.basic "string")] [.basic "int"]
      (.cons rfl (.nil _)) (.nil _)).1,
    (C10_functype_equality [.arg "a" (.basic "int")] []
      [.arg "a" (.basic "int"), .arg "b" (.basic "string")] [.basic "int"]
      (.cons rfl (.nil _)) (.nil _)).2.1 ⟨[], []⟩ "f"⟩

theorem get_shiftStab (a b : Nat) (s : SymbolTable) (n : String) :
    (shiftStab a b s).get n = s.get n := rfl

theorem shift_addError (a b : Nat) (s : AState) (d : CompileErrorData) (h : a ≤ s.nextId) :
    shiftSt a b (s.addError d) = (shiftSt a b s).addError d := by
  unfold AState.addError shiftSt shiftStab shiftE
  simp only [List.map_append, List.map_cons, List.map_nil]
  have h2 : s.nextId + 1 - a + b = s.nextId - a + b + 1 := by omega
  rw [h2]

theorem addError_invariants (a : Nat) (s : AState) (d : CompileErrorData)
    (h1 : a ≤ s.nextId) (h2 : IdsFrom a s.stab.errors) :
    a ≤ (s.addError d).nextId ∧ IdsFrom a (s.addError d).stab.errors := by
  constructor
  · simp only [AState.addError]
    omega
  · intro e he
    simp only [AState.addError, List.mem_append, List.mem_singleton] at he
    rcases he with he | he
    · exact h2 e he
    · rw [he]
      exact h1

theorem resolve_shift (a b : Nat) : ∀ (e : Expr) (s : AState) (ty : Ty) (s2 : AState),
    a ≤ s.nextId → IdsFrom a s.stab.errors →
    resolve s e = some (ty, s2) →
    resolve (shiftSt a b s) e = some (ty, shiftSt a b s2) ∧
    a ≤ s2.nextId ∧ IdsFrom a s2.stab.errors
  | .bad loc msg, s, ty, s2 => by
      intro hn hi h
      simp only [resolve, Option.some.injEq, Prod.mk.injEq] at h
      obtain ⟨h1, h2⟩ := h
      subst h1
      subst h2
      refine ⟨?_, addError_invariants a s _ hn hi⟩
      simp only [resolve, shift_addError a b s _ hn]
  | .ident loc name, s, ty, s2 => by
      intro hn hi h
      simp only [resolve] at h
      cases hg : s.stab.get name with
      | some t =>
          rw [hg] at h
          simp only [Option.some.injEq, Prod.mk.injEq] at h
          obtain ⟨h1, h2⟩ := h
          subst h1
          subst h2
          refine ⟨?_, hn, hi⟩
          simp only [resolve, get_shiftStab]
          rw [show (shiftSt a b s).stab = shiftStab a b s.stab from rfl]
          rw [get_shiftStab, hg]
      | none =>
          rw [hg] at h
          simp only [Option.some.injEq, Prod.mk.injEq] at h
          obtain ⟨h1, h2⟩ := h
          subst h1
          subst h2
          refine ⟨?_, addError_invariants a s _ hn hi⟩
          simp only [resolve]
          rw [show (shiftSt a b s).stab = shiftStab a b s.stab from rfl]
          rw [get_shiftStab, hg, shift_addError a b s _ hn]
  | .binary loc op e1 e2, s, ty, s2 => by
      intro hn hi h
      simp only [resolve] at h
      cases hr1 : resolve s e1 with
      | none => rw [hr1] at h; exact absurd h (by simp)
      | some p1 =>
          rw [hr1] at h
          obtain ⟨t1, s1⟩ := p1
          obtain ⟨hs1, hn1, hi1⟩ := resolve_shift a b e1 s t1 s1 hn hi hr1
          dsimp only at h
          cases hr2 : resolve s1 e2 with
          | none => rw [hr2] at h; exact absurd h (by simp)
          | some p2 =>
              rw [hr2] at h
              obtain ⟨t2, s3⟩ := p2
              obtain ⟨hs2, hn2, hi2⟩ := resolve_shift a b e2 s1 t2 s3 hn1 hi1 hr2
              dsimp only at h
              by_cases he1 : isErrorType t1
              · rw [if_pos he1] at h
                simp only [Option.some.injEq, Prod.mk.injEq] at h
                obtain ⟨h1, h2⟩ := h
                subst h1
                subst h2
                refine ⟨?_, hn2, hi2⟩
                simp only [resolve, hs1, hs2, if_pos he1]
              · rw [if_neg he1] at h
                by_cases he2 : isErrorType t2
                · rw [if_pos he2] at h
                  simp only [Option.some.injEq, Prod.mk.injEq] at h
                  obtain ⟨h1, h2⟩ := h
                  subst h1
                  subst h2
                  refine ⟨?_, hn2, hi2⟩
                  simp only [resolve, hs1, hs2, if_neg he1, if_pos he2]
                · rw [if_neg he2] at h
                  cases heq : equals t1 t2 with
                  | none => rw [heq] at h; exact absurd h (by simp)
                  | some bq =>
                      rw [heq] at h
                      cases bq with
                      | false =>
                          simp only [Option.some.injEq, Prod.mk.injEq] at h
                          obtain ⟨h1, h2⟩ := h
                          subst h1
                          subst h2
                          refine ⟨?_, addError_invariants a s3 _ hn2 hi2⟩
                          simp only [resolve, hs1, hs2, if_neg he1, if_neg he2, heq,
                            shift_addError a b s3 _ hn2]
                      | true =>
                          cases hop : isOpDefined t1 op with
                          | none => rw [hop] at h; exact absurd h (by simp)
                          | some bo =>
                              rw [hop] at h
                              cases bo with
                              | false =>
                                  simp only [Option.some.injEq, Prod.mk.injEq] at h
                                  obtain ⟨h1, h2⟩ := h
                                  subst h1
                                  subst h2
                                  refine ⟨?_, addError_invariants a s3 _ hn2 hi2⟩
                                  simp only [resolve, hs1, hs2, if_neg he1, if_neg he2, heq,
                                    hop, shift_addError a b s3 _ hn2]
                              | true =>
                                  simp only [Option.some.injEq, Prod.mk.injEq] at h
                                  obtain ⟨h1, h2⟩ := h
                                  subst h1
                                  subst h2
                                  refine ⟨?_, hn2, hi2⟩
                                  simp only [resolve, hs1, hs2, if_neg he1, if_neg he2, heq,
                                    hop]
  | .unary loc op operand, s, ty, s2 => by
      intro hn hi h
      simp only [resolve] at h
      cases hr : resolve s operand with
      | none => rw [hr] at h; exact absurd h (by simp)
      | some p =>
          rw [hr] at h
          obtain ⟨t0, s1⟩ := p
          obtain ⟨hs1, hn1, hi1⟩ := resolve_shift a b operand s t0 s1 hn hi hr
          dsimp only at h
          cases t0 with
          | basic t =>
              split at h
              case h_2 => exact absurd h (by simp)
              case h_3 =>
                rename_i x hnb hnn
                exact absurd rfl (hnb t)
              rename_i tx sx heq
              injection heq with heq2
              subst heq2
              by_cases ht : (t != "int") = true
              · rw [if_pos ht] at h
                simp only [Option.some.injEq, Prod.mk.injEq] at h
                obtain ⟨h1, h2⟩ := h
                subst h1
                subst h2
                refine ⟨?_, addError_invariants a s1 _ hn1 hi1⟩
                simp only [resolve, hs1]
                rw [if_pos ht, shift_addError a b s1 _ hn1]
              · rw [if_neg ht] at h
                simp only [Option.some.injEq, Prod.mk.injEq] at h
                obtain ⟨h1, h2⟩ := h
                subst h1
                subst h2
                refine ⟨?_, hn1, hi1⟩
                simp only [resolve, hs1]
                rw [if_neg ht]
          | basicNil =>
              exact absurd h (by simp)
          | err r =>
              simp only [Option.some.injEq, Prod.mk.injEq] at h
              obtain ⟨h1, h2⟩ := h
              subst h1
              subst h2
              refine ⟨?_, hn1, hi1⟩
              simp only [resolve, hs1]
          | any =>
              simp only [Option.some.injEq, Prod.mk.injEq] at h
              obtain ⟨h1, h2⟩ := h
              subst h1
              subst h2
              refine ⟨?_, hn1, hi1⟩
              simp only [resolve, hs1]
          | arg n2 t2 =>
              simp only [Option.some.injEq, Prod.mk.injEq] at h
              obtain ⟨h1, h2⟩ := h
              subst h1
              subst h2
              refine ⟨?_, hn1, hi1⟩
              simp only [resolve, hs1]
          | func ar rr =>
              simp only [Option.some.injEq, Prod.mk.injEq] at h
              obtain ⟨h1, h2⟩ := h
              subst h1
              subst h2
              refine ⟨?_, hn1, hi1⟩
              simp only [resolve, hs1]
  | .lit loc .string v, s, ty, s2 => by
      intro hn hi h
      simp only [resolve, Option.some.injEq, Prod.mk.injEq] at h
      obtain ⟨h1, h2⟩ := h
      subst h1
      subst h2
      exact ⟨by simp only [resolve], hn, hi⟩
  | .lit loc .number v, s, ty, s2 => by
      intro hn hi h
      simp only [resolve, Option.some.injEq, Prod.mk.injEq] at h
      obtain ⟨h1, h2⟩ := h
      subst h1
      subst h2
      exact ⟨by simp only [resolve], hn, hi⟩
  | .funcDecl loc n body, s, ty, s2 => by
      intro hn hi h
      simp only [resolve, Option.some.injEq, Prod.mk.injEq] at h
      obtain ⟨h1, h2⟩ := h
      subst h1
      subst h2
      exact ⟨by simp only [resolve], hn, hi⟩
  | .varDecl loc n v rt, s, ty, s2 => by
      intro hn hi h
      simp only [resolve, Option.some.injEq, Prod.mk.injEq] at h
      obtain ⟨h1, h2⟩ := h
      subst h1
      subst h2
      exact ⟨by simp only [resolve], hn, hi⟩
  | .funcCall loc n args rts, s, ty, s2 => by
      intro hn hi h
      simp only [resolve, Option.some.injEq, Prod.mk.injEq] at h
      obtain ⟨h1, h2⟩ := h
      subst h1
      subst h2
      exact ⟨by simp only [resolve], hn, hi⟩
  | .ifE loc c t e, s, ty, s2 => by
      intro hn hi h
      simp only [resolve, Option.some.injEq, Prod.mk.injEq] at h
      obtain ⟨h1, h2⟩ := h
      subst h1
      subst h2
      exact ⟨by simp only [resolve], hn, hi⟩
  | .boolean loc o p q, s, ty, s2 => by
      intro hn hi h
      simp only [resolve, Option.some.injEq, Prod.mk.injEq] at h
      obtain ⟨h1, h2⟩ := h
      subst h1
      subst h2
      exact ⟨by simp only [resolve], hn, hi⟩


theorem importTab_shift (a b : Nat) (u v : SymbolTable) :
    shiftStab a b (u.importTab v) = (shiftStab a b u).importTab (shiftStab a b v) := by
  unfold SymbolTable.importTab shiftStab
  simp [List.map_append]

theorem importTab_idsFrom (a : Nat) (u v : SymbolTable)
    (hu : IdsFrom a u.errors) (hv : IdsFrom a v.errors) :
    IdsFrom a (u.importTab v).errors := by
  intro e he
  simp only [SymbolTable.importTab, List.mem_append] at he
  rcases he with he | he
  · exact hu e he
  · exact hv e he

mutual

theorem analyze_shift (a b : Nat) : ∀ (e : Expr) (s s2 : AState) (e2 : Expr),
    a ≤ s.nextId → IdsFrom a s.stab.errors → noArgCall e = true →
    analyze s e = some (s2, e2) →
    analyze (shiftSt a b s) e2 = some (shiftSt a b s2, e2) ∧
    a ≤ s2.nextId ∧ IdsFrom a s2.stab.errors
  | .bad loc msg, s, s2, e2 => by
      intro hn hi hP h
      simp only [analyze, Option.some.injEq, Prod.mk.injEq] at h
      obtain ⟨h1, h2⟩ := h
      subst h1
      subst h2
      refine ⟨?_, addError_invariants a s _ hn hi⟩
      simp only [analyze, shift_addError a b s _ hn]
  | .funcDecl loc name body, s, s2, e2 => by
      intro hn hi hP h
      simp only [analyze] at h
      cases hc : analyzeChildren { s with stab := addFunction s.stab name } body with
      | none => rw [hc] at h; exact absurd h (by simp)
      | some p =>
          rw [hc] at h
          obtain ⟨stF, body2⟩ := p
          dsimp only at h
          simp only [Option.some.injEq, Prod.mk.injEq] at h
          obtain ⟨h1, h2⟩ := h
          subst h1
          subst h2
          obtain ⟨hcs, hn2, hi2⟩ := analyzeChildren_shift a b body
            { s with stab := addFunction s.stab name } stF body2 hn hi
            (by simpa [noArgCall] using hP) hc
          refine ⟨?_, hn2, hi2⟩
          simp only [analyze]
          rw [show shiftSt a b { s with stab := addFunction s.stab name } =
            { shiftSt a b s with stab := addFunction (shiftSt a b s).stab name } from rfl] at hcs
          rw [hcs]
  | .varDecl loc name value rt, s, s2, e2 => by
      intro hn hi hP h
      simp only [analyze] at h
      cases hr : resolve s value with
      | none => rw [hr] at h; exact absurd h (by simp)
      | some p =>
          rw [hr] at h
          obtain ⟨t, s1⟩ := p
          dsimp only at h
          simp only [Option.some.injEq, Prod.mk.injEq] at h
          obtain ⟨h1, h2⟩ := h
          subst h1
          subst h2
          obtain ⟨hrs, hn1, hi1⟩ := resolve_shift a b value s t s1 hn hi hr
          refine ⟨?_, hn1, hi1⟩
          simp only [analyze, hrs]
          rfl
  | .funcCall loc name args rts, s, s2, e2 => by
      intro hn hi hP h
      have hargs : args = [] := by
        simpa [noArgCall, List.isEmpty_iff] using hP
      subst hargs
      simp only [analyze] at h
      cases hg : s.stab.get name with
      | none =>
          rw [hg] at h
          simp only [Option.some.injEq, Prod.mk.injEq] at h
          obtain ⟨h1, h2⟩ := h
          subst h1
          subst h2
          refine ⟨?_, addError_invariants a s _ hn hi⟩
          simp only [analyze]
          rw [show (shiftSt a b s).stab = shiftStab a b s.stab from rfl, get_shiftStab, hg,
            shift_addError a b s _ hn]
      | some t =>
          rw [hg] at h
          simp only [resolveArgs] at h
          simp only [Option.some.injEq, Prod.mk.injEq] at h
          obtain ⟨h1, h2⟩ := h
          subst h1
          subst h2
          refine ⟨?_, hn, hi⟩
          simp only [analyze]
          rw [show (shiftSt a b s).stab = shiftStab a b s.stab from rfl, get_shiftStab, hg]
          simp only [resolveArgs]
          simp [List.append_nil]
  | .ident loc name, s, s2, e2 => by
      intro hn hi hP h
      simp only [analyze] at h
      cases hg : s.stab.get name with
      | none =>
          rw [hg] at h
          simp only [Option.some.injEq, Prod.mk.injEq] at h
          obtain ⟨h1, h2⟩ := h
          subst h1
          subst h2
          refine ⟨?_, addError_invariants a s _ hn hi⟩
          simp only [analyze]
          rw [show (shiftSt a b s).stab = shiftStab a b s.stab from rfl, get_shiftStab, hg,
            shift_addError a b s _ hn]
      | some t =>
          rw [hg] at h
          simp only [Option.some.injEq, Prod.mk.injEq] at h
          obtain ⟨h1, h2⟩ := h
          subst h1
          subst h2
          refine ⟨?_, hn, hi⟩
          simp only [analyze]
          rw [show (shiftSt a b s).stab = shiftStab a b s.stab from rfl, get_shiftStab, hg]
  | .binary loc op ea eb, s, s2, e2 => by
      intro hn hi hP h
      simp only [analyze] at h
      cases hr : resolve s (.binary loc op ea eb) with
      | none => rw [hr] at h; exact absurd h (by simp)
      | some p =>
          rw [hr] at h
          obtain ⟨t, s1⟩ := p
          dsimp only at h
          simp only [Option.some.injEq, Prod.mk.injEq] at h
          obtain ⟨h1, h2⟩ := h
          subst h1
          subst h2
          obtain ⟨hrs, hn1, hi1⟩ := resolve_shift a b (.binary loc op ea eb) s t s1 hn hi hr
          refine ⟨?_, hn1, hi1⟩
          simp only [analyze, hrs]
  | .unary loc op operand, s, s2, e2 => by
      intro hn hi hP h
      simp only [analyze] at h
      cases hr : resolve s (.unary loc op operand) with
      | none => rw [hr] at h; exact absurd h (by simp)
      | some p =>
          rw [hr] at h
          obtain ⟨t, s1⟩ := p
          dsimp only at h
          simp only [Option.some.injEq, Prod.mk.injEq] at h
          obtain ⟨h1, h2⟩ := h
          subst h1
          subst h2
          obtain ⟨hrs, hn1, hi1⟩ := resolve_shift a b (.unary loc op operand) s t s1 hn hi hr
          refine ⟨?_, hn1, hi1⟩
          simp only [analyze, hrs]
  | .ifE loc c t e, s, s2, e2 => by
      intro hn hi hP h
      simp only [analyze, Option.some.injEq, Prod.mk.injEq] at h
      obtain ⟨h1, h2⟩ := h
      subst h1
      subst h2
      exact ⟨by simp only [analyze], hn, hi⟩
  | .boolean loc o p q, s, s2, e2 => by
      intro hn hi hP h
      simp only [analyze, Option.some.injEq, Prod.mk.injEq] at h
      obtain ⟨h1, h2⟩ := h
      subst h1
      subst h2
      exact ⟨by simp only [analyze], hn, hi⟩
  | .lit loc t v, s, s2, e2 => by
      intro hn hi hP h
      simp only [analyze, Option.some.injEq, Prod.mk.injEq] at h
      obtain ⟨h1, h2⟩ := h
      subst h1
      subst h2
      exact ⟨by simp only [analyze], hn, hi⟩

theorem analyzeChildren_shift (a b : Nat) : ∀ (body : List Expr) (s s2 : AState) (body2 : List Expr),
    a ≤ s.nextId → IdsFrom a s.stab.errors → noArgCallList body = true →
    analyzeChildren s body = some (s2, body2) →
    analyzeChildren (shiftSt a b s) body2 = some (shiftSt a b s2, body2) ∧
    a ≤ s2.nextId ∧ IdsFrom a s2.stab.errors
  | [], s, s2, body2 => by
      intro hn hi hP h
      simp only [analyzeChildren, Option.some.injEq, Prod.mk.injEq] at h
      obtain ⟨h1, h2⟩ := h
      subst h1
      subst h2
      exact ⟨by simp only [analyzeChildren], hn, hi⟩
  | child :: rest, s, s2, body2 => by
      intro hn hi hP h
      have hPc : noArgCall child = true ∧ noArgCallList rest = true := by
        simpa [noArgCallList, Bool.and_eq_true] using hP
      simp only [analyzeChildren] at h
      cases ha : analyze s child with
      | none => rw [ha] at h; exact absurd h (by simp)
      | some p =>
          rw [ha] at h
          obtain ⟨stC, child2⟩ := p
          dsimp only at h
          obtain ⟨hca, hnC, hiC⟩ := analyze_shift a b child s stC child2 hn hi hPc.1 ha
          cases hrec : analyzeChildren ⟨s.stab.importTab stC.stab, stC.nextId⟩ rest with
          | none => rw [hrec] at h; exact absurd h (by simp)
          | some q =>
              rw [hrec] at h
              obtain ⟨stF, rest2⟩ := q
              dsimp only at h
              simp only [Option.some.injEq, Prod.mk.injEq] at h
              obtain ⟨h1, h2⟩ := h
              subst h1
              subst h2
              obtain ⟨hcr, hnF, hiF⟩ := analyzeChildren_shift a b rest
                ⟨s.stab.importTab stC.stab, stC.nextId⟩ stF rest2 hnC
                (importTab_idsFrom a _ _ hi hiC) hPc.2 hrec
              refine ⟨?_, hnF, hiF⟩
              simp only [analyzeChildren, hca]
              rw [show shiftSt a b (⟨s.stab.importTab stC.stab, stC.nextId⟩ : AState) =
                ⟨(shiftSt a b s).stab.importTab (shiftSt a b stC).stab,
                  (shiftSt a b stC).nextId⟩ from by
                  simp only [shiftSt, importTab_shift]] at hcr
              rw [hcr]

end

theorem errsData_shift (a b : Nat) (l : List CErr) :
    errsData (l.map (shiftE a b)) = errsData l := by
  simp [errsData, shiftE]

theorem shiftStab_of_no_errors (a b : Nat) (g : SymbolTable) (hg : g.errors = []) :
    shiftStab a b g = g := by
  cases g with
  | mk ent err =>
      simp only [shiftStab]
      simp only at hg
      subst hg
      rfl

theorem mergeErrors_shift (a b : Nat) (l : List CErr) : ∀ (acc : List CErr),
    IdsFrom a acc → IdsFrom a l →
    mergeErrors (acc.map (shiftE a b)) (l.map (shiftE a b)) =
      (mergeErrors acc l).map (shiftE a b) := by
  induction l with
  | nil => intro acc _ _; simp [mergeErrors]
  | cons e es ih =>
      intro acc hacc hl
      simp only [List.map_cons, mergeErrors]
      have hid : ((acc.map (shiftE a b)).any fun e2 => (shiftE a b e).id == e2.id) =
          (acc.any fun e2 => e.id == e2.id) := by
        rw [Bool.eq_iff_iff]
        simp only [List.any_eq_true, List.mem_map]
        constructor
        · rintro ⟨x, ⟨y, hy, rfl⟩, hb⟩
          refine ⟨y, hy, ?_⟩
          have h1 := hl e (List.mem_cons_self e es)
          have h2 := hacc y hy
          simp only [shiftE, beq_iff_eq] at hb ⊢
          omega
        · rintro ⟨y, hy, hb⟩
          refine ⟨shiftE a b y, ⟨y, hy, rfl⟩, ?_⟩
          simp only [shiftE, beq_iff_eq] at hb ⊢
          omega
      rw [hid]
      by_cases hc : (acc.any fun e2 => e.id == e2.id) = true
      · rw [if_pos hc, if_pos hc]
        exact ih acc hacc (fun x hx => hl x (List.mem_cons_of_mem e hx))
      · rw [if_neg hc, if_neg hc]
        have hmap : (acc ++ [e]).map (shiftE a b) = acc.map (shiftE a b) ++ [shiftE a b e] := by
          simp
        rw [← hmap]
        refine ih (acc ++ [e]) ?_ (fun x hx => hl x (List.mem_cons_of_mem e hx))
        intro x hx
        rcases List.mem_append.mp hx with hx | hx
        · exact hacc x hx
        · have hxe : x = e := List.mem_singleton.mp hx
          rw [hxe]
          exact hl e (List.mem_cons_self e es)

theorem mergeErrors_idsFrom (a : Nat) (l : List CErr) : ∀ (acc : List CErr),
    IdsFrom a acc → IdsFrom a l → IdsFrom a (mergeErrors acc l) := by
  induction l with
  | nil => intro acc hacc _; simpa [mergeErrors] using hacc
  | cons e es ih =>
      intro acc hacc hl
      simp only [mergeErrors]
      by_cases hc : (acc.any fun e2 => e.id == e2.id) = true
      · rw [if_pos hc]
        exact ih acc hacc (fun x hx => hl x (List.mem_cons_of_mem e hx))
      · rw [if_neg hc]
        refine ih (acc ++ [e]) ?_ (fun x hx => hl x (List.mem_cons_of_mem e hx))
        intro x hx
        rcases List.mem_append.mp hx with hx | hx
        · exact hacc x hx
        · have hxe : x = e := List.mem_singleton.mp hx
          rw [hxe]
          exact hl e (List.mem_cons_self e es)


theorem doLoop_shift (a b : Nat) (global : SymbolTable) (hg : global.errors = []) :
    ∀ (exprs : List Expr) (ctr : Nat) (stmts : List AnnotatedExpr) (errs : List CErr)
      (stmtsF : List AnnotatedExpr) (errsF : List CErr) (cache : List Expr) (ctrF : Nat),
    a ≤ ctr → IdsFrom a errs → noArgCallList exprs = true →
    doLoop global ctr stmts errs exprs = some (stmtsF, errsF, cache, ctrF) →
    doLoop global (ctr - a + b) (stmts.map (shiftAnn a b)) (errs.map (shiftE a b)) cache =
      some (stmtsF.map (shiftAnn a b), errsF.map (shiftE a b), cache, ctrF - a + b) ∧
    a ≤ ctrF ∧ IdsFrom a errsF := by
  intro exprs
  induction exprs with
  | nil =>
      intro ctr stmts errs stmtsF errsF cache ctrF hn hi hP h
      simp only [doLoop, Option.some.injEq, Prod.mk.injEq] at h
      obtain ⟨h1, h2, h3, h4⟩ := h
      subst h1
      subst h2
      subst h3
      subst h4
      exact ⟨by simp only [doLoop], hn, hi⟩
  | cons e rest ih =>
      intro ctr stmts errs stmtsF errsF cache ctrF hn hi hP h
      have hPc : noArgCall e = true ∧ noArgCallList rest = true := by
        simpa [noArgCallList, Bool.and_eq_true] using hP
      simp only [doLoop] at h
      cases ha : analyze ⟨global, ctr⟩ e with
      | none => rw [ha] at h; exact absurd h (by simp)
      | some p =>
          rw [ha] at h
          obtain ⟨stR, e'⟩ := p
          dsimp only at h
          have hgi : IdsFrom a (⟨global, ctr⟩ : AState).stab.errors := by
            intro x hx
            simp only [hg] at hx
            exact absurd hx (List.not_mem_nil x)
          obtain ⟨hca, hnR, hiR⟩ := analyze_shift a b e ⟨global, ctr⟩ stR e' hn hgi hPc.1 ha
          cases hrec : doLoop global stR.nextId (stmts ++ [⟨stR.stab, e'⟩])
              (mergeErrors errs stR.stab.errors) rest with
          | none => rw [hrec] at h; exact absurd h (by simp)
          | some q =>
              rw [hrec] at h
              obtain ⟨stmts', errs', cacheR, ctr'⟩ := q
              dsimp only at h
              simp only [Option.some.injEq, Prod.mk.injEq] at h
              obtain ⟨h1, h2, h3, h4⟩ := h
              subst h1
              subst h2
              subst h4
              obtain ⟨hdr, hnF, hiF⟩ := ih stR.nextId (stmts ++ [⟨stR.stab, e'⟩])
                (mergeErrors errs stR.stab.errors) stmts' errs' cacheR ctr' hnR
                (mergeErrors_idsFrom a stR.stab.errors errs hi hiR) hPc.2 hrec
              refine ⟨?_, hnF, hiF⟩
              rw [← h3]
              simp only [doLoop]
              have hshift : shiftSt a b (⟨global, ctr⟩ : AState) =
                  (⟨global, ctr - a + b⟩ : AState) := by
                simp only [shiftSt, shiftStab_of_no_errors a b global hg]
              rw [hshift] at hca
              rw [hca]
              dsimp only
              rw [show (shiftSt a b stR).nextId = stR.nextId - a + b from rfl]
              rw [show (stmts.map (shiftAnn a b)) ++ [AnnotatedExpr.mk (shiftSt a b stR).stab e'] =
                (stmts ++ [AnnotatedExpr.mk stR.stab e']).map (shiftAnn a b) from by
                  simp [shiftAnn, shiftSt]]
              rw [show mergeErrors (errs.map (shiftE a b)) (shiftSt a b stR).stab.errors =
                (mergeErrors errs stR.stab.errors).map (shiftE a b) from by
                  rw [show (shiftSt a b stR).stab.errors = stR.stab.errors.map (shiftE a b)
                    from rfl]
                  exact mergeErrors_shift a b stR.stab.errors errs hi hiR]
              rw [hdr]


/-- C9, amended.  Determinism of the annotation pass on argument-free
statement streams: if one `ContextAnalyzer.Do` pass over the stream
succeeds and a second pass is run over the nodes the first pass left in
the cache (with any later allocation clock), the two annotated ASTs are
structurally equal -- Go's deep comparison ignores the error objects'
allocation identities, and the analyzer's control flow never depends on
them.  The argument-free restriction excludes the `FuncCall` nodes
whose in-place `ResolvedTypes` append `C9_determinism_counterexample`
exhibits. -/
theorem C9_determinism (global : SymbolTable) (fname : String) (a b : Nat)
    (exprs : List Expr) (ast1 ast2 : AST) (cache1 cache2 : List Expr) (c1 c2 : Nat)
    (hg : global.errors = [])
    (hP : noArgCallList exprs = true)
    (h1 : doPass global fname a exprs = some (ast1, cache1, c1))
    (h2 : doPass global fname b cache1 = some (ast2, cache2, c2)) :
    astEqStruct ast1 ast2 := by
  simp only [doPass] at h1 h2
  cases hd1 : doLoop global a [] [] exprs with
  | none => rw [hd1] at h1; exact absurd h1 (by simp)
  | some q1 =>
      rw [hd1] at h1
      obtain ⟨stmts1, errs1, cacheA, ctrA⟩ := q1
      dsimp only at h1
      simp only [Option.some.injEq, Prod.mk.injEq] at h1
      obtain ⟨hA1, hA2, hA3⟩ := h1
      obtain ⟨hshift, hnF, hiF⟩ := doLoop_shift a b global hg exprs a [] [] stmts1 errs1
        cacheA ctrA (le_refl a) (fun x hx => absurd hx (List.not_mem_nil x)) hP hd1
      simp only [Nat.sub_self, Nat.zero_add, List.map_nil] at hshift
      rw [hA2] at hshift
      rw [hshift] at h2
      dsimp only at h2
      simp only [Option.some.injEq, Prod.mk.injEq] at h2
      obtain ⟨hB1, hB2, hB3⟩ := h2
      rw [← hA1, ← hB1]
      simp only [astEqStruct, errsData_shift, List.map_map]
      refine ⟨trivial, trivial, trivial, ?_, trivial⟩
      apply List.map_congr_left
      intro s _
      simp [shiftAnn, shiftStab, errsData, shiftE]


/-- Witness for `C9_determinism`: the stream `x` (an undefined
identifier) analyzed at clock 0 and re-analyzed at clock 1. -/
theorem C9_determinism_witness :
    astEqStruct
      ⟨globalSymbolTable, "t",
        [⟨⟨[("print", .func [.arg "v" .any] [])], [⟨0, .undefined 0 "x"⟩]⟩, .ident 0 "x"⟩],
        [⟨0, .undefined 0 "x"⟩]⟩
      ⟨globalSymbolTable, "t",
        [⟨⟨[("print", .func [.arg "v" .any] [])], [⟨1, .undefined 0 "x"⟩]⟩, .ident 0 "x"⟩],
        [⟨1, .undefined 0 "x"⟩]⟩ :=
  C9_determinism globalSymbolTable "t" 0 1 [.ident 0 "x"] _ _ _ _ 1 2 rfl rfl rfl rfl

end Maqui
